import Mathlib

/-!
Verification of the `dispatch` message-routing library.

The development shallowly embeds the Go sources: `inspector.go`'s View
interface, the discriminator combinators, and `router.go`'s matching,
hook and processing logic.  Raw message bytes are modelled as `String`,
Go `error` values as an inductive `GoError` (with explicit wrapping so
that `errors.As`-style kind matching is expressible), and Go interface
values for inspectors as numeric identities (the router's view cache is
keyed by inspector interface identity).  Every router-level function
additionally returns a list of events recording which inspectors and
hooks were actually invoked and whether the full fallback search ran;
this ghost trace changes no control flow and lets invocation-count
properties be stated.
-/

namespace Dispatch

/-- View provides format-agnostic field access (inspector.go).  A view is
modelled by its three query methods. -/
structure View where
  hasField : String → Bool
  getString : String → Option String
  getBytes : String → Option String

/-- Discriminator determines if a source should handle a message based on
the message content (discriminator.go): a boolean predicate on a View. -/
def Discriminator : Type := View → Bool

/-- The Match method of the Discriminator interface. -/
def Discriminator.Match (d : Discriminator) (v : View) : Bool := d v

/-- HasFields returns a Discriminator that matches when all paths exist. -/
def HasFields (paths : List String) : Discriminator :=
  fun v => paths.all v.hasField

/-- FieldEquals returns a Discriminator that matches when the path exists
and equals the given string value. -/
def FieldEquals (path value : String) : Discriminator :=
  fun v =>
    match v.getString path with
    | some s => s == value
    | none => false

/-- And returns a Discriminator that matches when all discriminators match. -/
def And (ds : List Discriminator) : Discriminator :=
  fun v => ds.all fun d => d v

/-- Or returns a Discriminator that matches when any discriminator matches. -/
def Or (ds : List Discriminator) : Discriminator :=
  fun v => ds.any fun d => d v

/-- Go error values.  `wrap` is `fmt.Errorf` with `%w`; `unmarshalTag` and
`validationTag` are the package's `unmarshalError` and `validationError`
wrapper types (both of which expose `Unwrap`), and `mk` is a plain error
carrying only a message. -/
inductive GoError where
  | mk (msg : String)
  | wrap (msg : String) (inner : GoError)
  | unmarshalTag (inner : GoError)
  | validationTag (inner : GoError)
deriving Repr, DecidableEq

/-- The walk of `errors.As(err, &uerr)` for `uerr : *unmarshalError`: follow the Unwrap
chain looking for an `unmarshalError`; return its wrapped inner error
(`uerr.err`) when found. -/
def GoError.asUnmarshal : GoError → Option GoError
  | .mk _ => none
  | .wrap _ inner => inner.asUnmarshal
  | .unmarshalTag inner => some inner
  | .validationTag inner => inner.asUnmarshal

/-- The walk of `errors.As(err, &verr)` for `verr : *validationError`. -/
def GoError.asValidation : GoError → Option GoError
  | .mk _ => none
  | .wrap _ inner => inner.asValidation
  | .unmarshalTag inner => inner.asValidation
  | .validationTag inner => some inner

/-- The unmarshal-kind check on a nilable error value. -/
def errAsUnmarshal : Option GoError → Option GoError
  | none => none
  | some e => e.asUnmarshal

/-- The validation-kind check on a nilable error value. -/
def errAsValidation : Option GoError → Option GoError
  | none => none
  | some e => e.asValidation

/-- Replier sends responses back to the message originator (source.go).
`reply` receives the marshalled result bytes (a nilable `json.RawMessage`)
and `fail` the final error; each returns a nilable error. -/
structure Replier where
  reply : Option String → Option GoError
  fail : GoError → Option GoError

/-- Message contains the result of source parsing (source.go). -/
structure Message where
  key : String
  version : String
  payload : String
  replier : Option Replier

/-- Source pairs a name and a discriminator with a parse step (source.go).
The three optional fields model the optional per-source decision-hook
interfaces (`OnNoHandlerHook`, `OnUnmarshalErrorHook`,
`OnValidationErrorHook`): `none` means the source does not implement the
interface; otherwise the function gives the hook's returned error for the
arguments the router passes.  The side-effect-only optional hooks
(OnParse, OnDispatch, OnSuccess, OnFailure) return nothing and cannot
influence any value the router computes, so they are not modelled. -/
structure Source where
  name : String
  disc : Discriminator
  parse : String → Except GoError Message
  onNoHandler : Option (String → Option GoError)
  onUnmarshalError : Option (String → GoError → Option GoError)
  onValidationError : Option (String → GoError → Option GoError)

/-- Type-erased handler (`invoker` in router.go): payload bytes to
(result bytes, error), each nilable. -/
def Invoker : Type := String → Option String × Option GoError

/-- unmarshalAndValidate (router.go): decode the payload, tagging failure
as an unmarshal error, then run self-validation when the payload type
exposes it, tagging failure as a validation error.  `decode` plays the
role of `json.Unmarshal` into `T` and `validate` the role of the optional
`Validate` method (a type without it is `fun _ => none`). -/
def unmarshalAndValidate {T : Type} (decode : String → Except GoError T)
    (validate : T → Option GoError) (payload : String) : Except GoError T :=
  match decode payload with
  | .error e => .error (.unmarshalTag e)
  | .ok data =>
    match validate data with
    | some e => .error (.validationTag e)
    | none => .ok data

/-- The invoker built by RegisterProc (router.go): unmarshal and validate,
run the proc, and return the empty JSON object for `Replier.Reply` on
success. -/
def registerProcInvoker {T : Type} (decode : String → Except GoError T)
    (validate : T → Option GoError) (run : T → Option GoError) : Invoker :=
  fun payload =>
    match unmarshalAndValidate decode validate payload with
    | .error e => (none, some e)
    | .ok data =>
      match run data with
      | some e => (none, some e)
      | none => (some "\x7b\x7d", none)

/-- Global hooks configured by options (hooks.go), in registration order.
Each hook is modelled by its returned error as a function of the
arguments the router passes it (contexts carry no routed data and are not
modelled).  Context- and side-effect-only hook kinds (OnParse, OnDispatch,
OnSuccess, OnFailure) cannot influence any value the router computes and
are omitted. -/
structure Hooks where
  onNoSource : List (String → Option GoError)
  onParseError : List (String → GoError → Option GoError)
  onNoHandler : List (String → String → Option GoError)
  onUnmarshalError : List (String → String → GoError → Option GoError)
  onValidationError : List (String → String → GoError → Option GoError)

/-- sourceRef identifies a source by its position in the router
(router.go): `groupIdx` is `-1` for default sources. -/
structure SRef where
  groupIdx : Int
  sourceIdx : Nat
deriving Repr, DecidableEq

/-- group holds sources that share an inspector (router.go).  The
inspector interface value is identified by `inspector`; its behaviour
lives in the router's `inspectorImpl` table. -/
structure Group where
  inspector : Nat
  sources : List Source

/-- Router (router.go).  `inspectorImpl` gives the `Inspect` behaviour of
each inspector interface value (by identity); `handlers` is the key to
invoker map. -/
structure Router where
  inspectorImpl : Nat → String → Option View
  defaultInspector : Nat
  defaultSources : List Source
  groups : List Group
  handlers : String → Option Invoker
  hooks : Hooks

/-- Ghost trace events: which inspector values were actually asked to
`Inspect`, whether the full fallback search `matchAll` was entered, which
source (by position) the matcher resolved, and which decision hooks ran
(`g…` global hooks by index, `s…` the source-specific hook). -/
inductive Ev where
  | inspect (id : Nat)
  | matchAllCall
  | resolved (ref : SRef)
  | gNoSource (i : Nat)
  | gParseError (i : Nat)
  | gNoHandler (i : Nat)
  | sNoHandler
  | gUnmarshal (i : Nat)
  | sUnmarshal
  | gValidation (i : Nat)
  | sValidation
deriving Repr, DecidableEq

/-- viewCache (router.go): per-Process-call memo of inspector results,
keyed by inspector identity.  `none` caches a failed inspection exactly
like a successful one. -/
structure ViewCache where
  views : List (Nat × Option View)

/-- viewCache.get (router.go): return the cached result or invoke
`Inspect` once and cache the outcome, successful or not.  Emits an
`inspect` event exactly when `Inspect` is really invoked. -/
def ViewCache.get (r : Router) (raw : String) (c : ViewCache) (id : Nat) :
    Option View × ViewCache × List Ev :=
  match c.views.lookup id with
  | some res => (res, c, [])
  | none =>
    let res := r.inspectorImpl id raw
    (res, ⟨(id, res) :: c.views⟩, [Ev.inspect id])

/-- trySource (router.go): attempt to match the source at the given
position, re-evaluating its discriminator against the live view. -/
def Router.trySource (r : Router) (raw : String) (c : ViewCache) (ref : SRef) :
    Option Source × ViewCache × List Ev :=
  if ref.groupIdx = -1 then
    match r.defaultSources[ref.sourceIdx]? with
    | none => (none, c, [])
    | some src =>
      match ViewCache.get r raw c r.defaultInspector with
      | (none, c1, ev) => (none, c1, ev)
      | (some view, c1, ev) =>
        if src.disc view then (some src, c1, ev) else (none, c1, ev)
  else if ref.groupIdx < 0 then
    (none, c, [])
  else
    match r.groups[ref.groupIdx.toNat]? with
    | none => (none, c, [])
    | some g =>
      match g.sources[ref.sourceIdx]? with
      | none => (none, c, [])
      | some src =>
        match ViewCache.get r raw c g.inspector with
        | (none, c1, ev) => (none, c1, ev)
        | (some view, c1, ev) =>
          if src.disc view then (some src, c1, ev) else (none, c1, ev)

/-- Linear scan of a source list against a view, indexing from `i`:
returns the position and source of the first discriminator match. -/
def scanSources (view : View) : List Source → Nat → Option (Nat × Source)
  | [], _ => none
  | s :: rest, i =>
    if s.disc view then some (i, s) else scanSources view rest (i + 1)

/-- The custom-group half of matchAll (router.go): groups in registration
order, skipping a group silently when its inspector cannot parse the
input. -/
def Router.matchGroups (r : Router) (raw : String) :
    List Group → Nat → ViewCache → Option (SRef × Source) × ViewCache × List Ev
  | [], _, c => (none, c, [])
  | g :: rest, gi, c =>
    match ViewCache.get r raw c g.inspector with
    | (none, c1, ev) =>
      let rec1 := r.matchGroups raw rest (gi + 1) c1
      (rec1.1, rec1.2.1, ev ++ rec1.2.2)
    | (some view, c1, ev) =>
      match scanSources view g.sources 0 with
      | some (si, src) => (some (⟨(gi : Int), si⟩, src), c1, ev)
      | none =>
        let rec1 := r.matchGroups raw rest (gi + 1) c1
        (rec1.1, rec1.2.1, ev ++ rec1.2.2)

/-- matchAll (router.go): search the default group first, then each
custom group in registration order, returning the first source whose
discriminator matches together with its position. -/
def Router.matchAll (r : Router) (raw : String) (c : ViewCache) :
    Option (SRef × Source) × ViewCache × List Ev :=
  let dres : Option (SRef × Source) × ViewCache × List Ev :=
    if r.defaultSources.isEmpty then (none, c, [])
    else
      match ViewCache.get r raw c r.defaultInspector with
      | (none, c1, ev) => (none, c1, ev)
      | (some view, c1, ev) =>
        match scanSources view r.defaultSources 0 with
        | some (si, src) => (some (⟨-1, si⟩, src), c1, ev)
        | none => (none, c1, ev)
  match dres with
  | (some res, c1, ev) => (some res, c1, ev)
  | (none, c1, ev) =>
    let rec1 := r.matchGroups raw r.groups 0 c1
    (rec1.1, rec1.2.1, ev ++ rec1.2.2)

/-- match (router.go; `match` is reserved in Lean): build a fresh view
cache, try the LastMatchRef hint first, and fall through to the full
search, storing the found position back into LastMatchRef.  Returns the
resolved source with its position, the new LastMatchRef value, and the
trace. -/
def Router.matchSource (r : Router) (last : Option SRef) (raw : String) :
    Option (SRef × Source) × Option SRef × List Ev :=
  let c0 : ViewCache := ⟨[]⟩
  match last with
  | some ref =>
    match r.trySource raw c0 ref with
    | (some src, _, ev) => (some (ref, src), last, ev ++ [Ev.resolved ref])
    | (none, c1, ev) =>
      match r.matchAll raw c1 with
      | (some (ref2, src2), _, ev2) =>
        (some (ref2, src2), some ref2,
          ev ++ Ev.matchAllCall :: ev2 ++ [Ev.resolved ref2])
      | (none, _, ev2) => (none, last, ev ++ Ev.matchAllCall :: ev2)
  | none =>
    match r.matchAll raw c0 with
    | (some (ref2, src2), _, ev2) =>
      (some (ref2, src2), some ref2, Ev.matchAllCall :: ev2 ++ [Ev.resolved ref2])
    | (none, _, ev2) => (none, last, Ev.matchAllCall :: ev2)

/-- The loop of handleNoSource (router.go): hooks run in registration
order, but the loop returns the first non-nil error immediately, so
hooks after it are never invoked. -/
def noSourceLoop (raw : String) : List (String → Option GoError) → Nat →
    Option GoError × List Ev
  | [], _ => (none, [])
  | f :: rest, i =>
    match f raw with
    | some e => (some e, [Ev.gNoSource i])
    | none =>
      let rec1 := noSourceLoop raw rest (i + 1)
      (rec1.1, Ev.gNoSource i :: rec1.2)

/-- handleNoSource (router.go). -/
def Router.handleNoSource (r : Router) (raw : String) : Option GoError × List Ev :=
  let l := noSourceLoop raw r.hooks.onNoSource 0
  (match l.1 with
   | some e => some e
   | none =>
     if r.hooks.onNoSource.isEmpty then some (.mk "no source matched message")
     else none,
   l.2)

/-- The loop of handleParseError (router.go), also short-circuiting. -/
def parseErrorLoop (sourceName : String) (parseErr : GoError) :
    List (String → GoError → Option GoError) → Nat → Option GoError × List Ev
  | [], _ => (none, [])
  | f :: rest, i =>
    match f sourceName parseErr with
    | some e => (some e, [Ev.gParseError i])
    | none =>
      let rec1 := parseErrorLoop sourceName parseErr rest (i + 1)
      (rec1.1, Ev.gParseError i :: rec1.2)

/-- handleParseError (router.go). -/
def Router.handleParseError (r : Router) (src : Source) (parseErr : GoError) :
    Option GoError × List Ev :=
  let l := parseErrorLoop src.name parseErr r.hooks.onParseError 0
  (match l.1 with
   | some e => some e
   | none =>
     if r.hooks.onParseError.isEmpty then
       some (.wrap ("parse failed for source " ++ src.name) parseErr)
     else none,
   l.2)

/-- The collecting loop of handleNoHandler (router.go): every global hook
is invoked; all returned errors are gathered. -/
def noHandlerCollect (sourceName key : String) :
    List (String → String → Option GoError) → Nat → List GoError × List Ev
  | [], _ => ([], [])
  | f :: rest, i =>
    let rec1 := noHandlerCollect sourceName key rest (i + 1)
    match f sourceName key with
    | some e => (e :: rec1.1, Ev.gNoHandler i :: rec1.2)
    | none => (rec1.1, Ev.gNoHandler i :: rec1.2)

/-- handleNoHandler (router.go): run all global hooks, then the
source-specific hook if the source implements it; the first collected
error wins; with no collected error the fixed fallback is synthesized
exactly when the *global* hook list is empty; a non-nil result with a
replier present is routed through `Replier.Fail`. -/
def Router.handleNoHandler (r : Router) (src : Source) (sourceName key : String)
    (replier : Option Replier) : Option GoError × List Ev :=
  let g := noHandlerCollect sourceName key r.hooks.onNoHandler 0
  let collected : List GoError × List Ev :=
    match src.onNoHandler with
    | some h =>
      match h key with
      | some e => (g.1 ++ [e], g.2 ++ [Ev.sNoHandler])
      | none => (g.1, g.2 ++ [Ev.sNoHandler])
    | none => g
  let resultErr : Option GoError :=
    match collected.1.head? with
    | some e => some e
    | none =>
      if r.hooks.onNoHandler.isEmpty then some (.mk ("no handler for key: " ++ key))
      else none
  (match resultErr, replier with
   | some e, some rep => rep.fail e
   | _, _ => resultErr,
   collected.2)

/-- The collecting loop of handleUnmarshalError and handleValidationError
(router.go). -/
def errHookCollect (ev : Nat → Ev) (sourceName key : String) (err : GoError) :
    List (String → String → GoError → Option GoError) → Nat → List GoError × List Ev
  | [], _ => ([], [])
  | f :: rest, i =>
    let rec1 := errHookCollect ev sourceName key err rest (i + 1)
    match f sourceName key err with
    | some e => (e :: rec1.1, ev i :: rec1.2)
    | none => (rec1.1, ev i :: rec1.2)

/-- handleUnmarshalError (router.go). -/
def Router.handleUnmarshalError (r : Router) (src : Source)
    (sourceName key : String) (err : GoError) (replier : Option Replier) :
    Option GoError × List Ev :=
  let g := errHookCollect Ev.gUnmarshal sourceName key err r.hooks.onUnmarshalError 0
  let collected : List GoError × List Ev :=
    match src.onUnmarshalError with
    | some h =>
      match h key err with
      | some e => (g.1 ++ [e], g.2 ++ [Ev.sUnmarshal])
      | none => (g.1, g.2 ++ [Ev.sUnmarshal])
    | none => g
  let resultErr : Option GoError :=
    match collected.1.head? with
    | some e => some e
    | none =>
      if r.hooks.onUnmarshalError.isEmpty then some (.wrap "unmarshal payload" err)
      else none
  (match resultErr, replier with
   | some e, some rep => rep.fail e
   | _, _ => resultErr,
   collected.2)

/-- handleValidationError (router.go).  Note it receives the error
already unwrapped from the `validationError` tag (`verr.err`). -/
def Router.handleValidationError (r : Router) (src : Source)
    (sourceName key : String) (err : GoError) (replier : Option Replier) :
    Option GoError × List Ev :=
  let g := errHookCollect Ev.gValidation sourceName key err r.hooks.onValidationError 0
  let collected : List GoError × List Ev :=
    match src.onValidationError with
    | some h =>
      match h key err with
      | some e => (g.1 ++ [e], g.2 ++ [Ev.sValidation])
      | none => (g.1, g.2 ++ [Ev.sValidation])
    | none => g
  let resultErr : Option GoError :=
    match collected.1.head? with
    | some e => some e
    | none =>
      if r.hooks.onValidationError.isEmpty then some (.wrap "validate payload" err)
      else none
  (match resultErr, replier with
   | some e, some rep => rep.fail e
   | _, _ => resultErr,
   collected.2)

/-- Process (router.go): resolve a source, parse, look up the handler,
invoke it, divert tagged unmarshal/validation errors to their decision
handlers, and send the outcome through the Replier when one is present.
Returns the final error, the new LastMatchRef value, and the trace. -/
def Router.Process (r : Router) (last : Option SRef) (raw : String) :
    Option GoError × Option SRef × List Ev :=
  match r.matchSource last raw with
  | (none, last1, ev) =>
    let h := r.handleNoSource raw
    (h.1, last1, ev ++ h.2)
  | (some (_, src), last1, ev) =>
    match src.parse raw with
    | .error perr =>
      let h := r.handleParseError src perr
      (h.1, last1, ev ++ h.2)
    | .ok msg =>
      match r.handlers msg.key with
      | none =>
        let h := r.handleNoHandler src src.name msg.key msg.replier
        (h.1, last1, ev ++ h.2)
      | some handler =>
        let out := handler msg.payload
        match errAsUnmarshal out.2 with
        | some inner =>
          let h := r.handleUnmarshalError src src.name msg.key inner msg.replier
          (h.1, last1, ev ++ h.2)
        | none =>
          match errAsValidation out.2 with
          | some inner =>
            let h := r.handleValidationError src src.name msg.key inner msg.replier
            (h.1, last1, ev ++ h.2)
          | none =>
            match msg.replier with
            | some rep =>
              match out.2 with
              | some e => (rep.fail e, last1, ev)
              | none => (rep.reply out.1, last1, ev)
            | none => (out.2, last1, ev)

/-!
Specification-side definitions.  These follow the spec's words for the
fallback search order ("check the default source group first, in
registration order, then each custom group in registration order") and
are compared with the code-derived matcher above.
-/

/-- The view the router's matcher evaluates a discriminator against: the
result of the identified inspector on the raw input (per-call caching
never changes this value). -/
def Router.viewOf (r : Router) (raw : String) (id : Nat) : Option View :=
  r.inspectorImpl id raw

/-- An entry of the matcher's scan order: position, the identity of the
group's inspector, and the source. -/
abbrev Entry : Type := SRef × Nat × Source

/-- The scan-order entries contributed by one group of sources. -/
def groupEntries (gi : Nat) (g : Group) : List Entry :=
  g.sources.enum.map fun p => (⟨(gi : Int), p.1⟩, g.inspector, p.2)

/-- The scan-order entries of the custom groups numbered from `gi`. -/
def groupEntriesFrom (gs : List Group) (gi : Nat) : List Entry :=
  (List.enumFrom gi gs).flatMap fun gp => groupEntries gp.1 gp.2

/-- The scan order the spec prescribes: the default group's sources in
registration order, then each custom group's sources in registration
order. -/
def Router.orderedEntries (r : Router) : List Entry :=
  (r.defaultSources.enum.map fun p => ((⟨-1, p.1⟩ : SRef), r.defaultInspector, p.2))
    ++ groupEntriesFrom r.groups 0

/-- A source under a given inspector matches when the inspector accepts
the raw input and the source's discriminator holds on the resulting view;
a group whose inspector rejects the input matches nothing. -/
def Router.posMatch (r : Router) (raw : String) (iid : Nat) (src : Source) : Bool :=
  match r.viewOf raw iid with
  | some v => src.disc v
  | none => false

/-- An entry of the scan order matches (see `Router.posMatch`). -/
def Router.entryMatches (r : Router) (raw : String) (e : Entry) : Bool :=
  r.posMatch raw e.2.1 e.2.2

/-- The spec's fallback search: the first matching entry in scan order. -/
def Router.specFirstMatch (r : Router) (raw : String) : Option Entry :=
  r.orderedEntries.find? (r.entryMatches raw)

/-- Position lookup mirroring trySource's resolution: the inspector
identity and source sitting at a stored reference. -/
def Router.refLookup (r : Router) (ref : SRef) : Option (Nat × Source) :=
  if ref.groupIdx = -1 then
    match r.defaultSources[ref.sourceIdx]? with
    | some src => some (r.defaultInspector, src)
    | none => none
  else if ref.groupIdx < 0 then none
  else
    match r.groups[ref.groupIdx.toNat]? with
    | none => none
    | some g =>
      match g.sources[ref.sourceIdx]? with
      | some src => some (g.inspector, src)
      | none => none

/-- A cache is coherent when every stored result agrees with the actual
inspector behaviour on the raw input under scrutiny. -/
def Coherent (r : Router) (raw : String) (c : ViewCache) : Prop :=
  ∀ id res, c.views.lookup id = some res → res = r.inspectorImpl id raw

/-- The inspector identities recorded in the trace as actually invoked. -/
def inspectIds (evs : List Ev) : List Nat :=
  evs.filterMap fun e =>
    match e with
    | .inspect id => some id
    | _ => none

/-- The inspector identities a cache already holds. -/
def ViewCache.keys (c : ViewCache) : List Nat := c.views.map Prod.fst

/-- The first non-nil result in a list of hook results. -/
def firstSomeResult {α : Type} : List (Option α) → Option α
  | [] => none
  | some e :: _ => some e
  | none :: rest => firstSomeResult rest

/-- How many hooks a short-circuiting loop invokes: every hook up to and
including the first that returns an error. -/
def shortCircuitCount {α : Type} : List (Option α) → Nat
  | [] => 0
  | some _ :: _ => 1
  | none :: rest => shortCircuitCount rest + 1

/-- Events of the decision-hook stages are hook events: they record no
inspector invocation and no fallback-search entry. -/
def hookOnly (e : Ev) : Prop :=
  match e with
  | Ev.inspect _ => False
  | Ev.matchAllCall => False
  | Ev.resolved _ => False
  | _ => True

/-- A sample view on which every field exists. -/
def sampleView : View := ⟨fun _ => true, fun _ => none, fun _ => none⟩

/-- A router configuration with no hooks registered. -/
def emptyHooks : Hooks := ⟨[], [], [], [], []⟩

/-- A replier whose Fail callback returns its own error. -/
def sampleReplierC6 : Replier :=
  ⟨fun _ => none, fun _ => some (GoError.mk "callback error")⟩

def sampleMsgC6 : Message := ⟨"k", "", "p", some sampleReplierC6⟩

def sampleHandlerC6 : Invoker := fun _ => (none, some (GoError.mk "handler error"))

def sampleSourceC6 : Source :=
  ⟨"s", fun _ => true, fun _ => .ok sampleMsgC6, none, none, none⟩

def sampleRouterC6 : Router :=
  ⟨fun _ _ => some sampleView, 0, [sampleSourceC6], [],
   fun k => if k == "k" then some sampleHandlerC6 else none, emptyHooks⟩

/-- A router with no sources and two OnNoSource hooks that both error. -/
def cexRouterC2 : Router :=
  ⟨fun _ _ => none, 0, [], [], fun _ => none,
   ⟨[fun _ => some (GoError.mk "E1"), fun _ => some (GoError.mk "E2")],
    [], [], [], []⟩⟩

def sampleMsgC3 : Message := ⟨"k", "", "p", none⟩

/-- A source implementing the OnNoHandler hook interface with a hook that
returns nil. -/
def cexSourceC3 : Source :=
  ⟨"s3", fun _ => true, fun _ => .ok sampleMsgC3, some (fun _ => none), none, none⟩

/-- Zero global OnNoHandler hooks; the only hook of that kind is the
source-specific one. -/
def cexRouterC3 : Router :=
  ⟨fun _ _ => some sampleView, 0, [cexSourceC3], [], fun _ => none, emptyHooks⟩

/-- Like `cexRouterC3` but with one global no-op OnNoHandler hook. -/
def sampleRouterC3w : Router :=
  ⟨fun _ _ => some sampleView, 0, [cexSourceC3], [], fun _ => none,
   ⟨[], [], [fun _ _ => none], [], []⟩⟩

def sampleMsgC7 : Message := ⟨"k7", "", "pv", none⟩

def sampleSourceC7 : Source :=
  ⟨"s7", fun _ => true, fun _ => .ok sampleMsgC7, none, none, none⟩

def sampleDecodeC7 : String → Except GoError String := fun p => .ok p

def sampleValidateC7 : String → Option GoError :=
  fun _ => some (GoError.mk "empty value")

def sampleRunC7 : String → Option GoError := fun _ => none

/-- A router whose only handler rejects its payload in self-validation;
no OnValidationError hooks are registered. -/
def cexRouterC7 : Router :=
  ⟨fun _ _ => some sampleView, 0, [sampleSourceC7], [],
   fun k =>
     if k == "k7" then
       some (registerProcInvoker sampleDecodeC7 sampleValidateC7 sampleRunC7)
     else none,
   emptyHooks⟩

def sampleMsgC8 : Message := ⟨"nokey", "", "p", none⟩

def sampleSourceC8 : Source :=
  ⟨"s8", fun _ => true, fun _ => .ok sampleMsgC8, none, none, none⟩

def hookE1C8 : String → String → Option GoError := fun _ _ => some (GoError.mk "E1")

def hookE2C8 : String → String → Option GoError := fun _ _ => some (GoError.mk "E2")

/-- A router with two erroring global OnNoHandler hooks and no handler for
the parsed key. -/
def sampleRouterC8 : Router :=
  ⟨fun _ _ => some sampleView, 0, [sampleSourceC8], [], fun _ => none,
   ⟨[], [], [hookE1C8, hookE2C8], [], []⟩⟩

theorem coherent_empty (r : Router) (raw : String) : Coherent r raw ⟨[]⟩ := by
  intro id res h
  simp [List.lookup] at h

theorem lookup_eq_none_of_not_mem_fst {l : List (Nat × Option View)} {id : Nat}
    (h : id ∉ l.map Prod.fst) : l.lookup id = none := by
  induction l with
  | nil => rfl
  | cons p rest ih =>
    simp only [List.map_cons, List.mem_cons, not_or] at h
    simp only [List.lookup]
    have hb : (id == p.1) = false := by
      simp only [beq_eq_false_iff_ne, ne_eq]
      exact h.1
    rw [hb]
    exact ih h.2

theorem not_mem_fst_of_lookup_eq_none {l : List (Nat × Option View)} {id : Nat}
    (h : l.lookup id = none) : id ∉ l.map Prod.fst := by
  induction l with
  | nil => simp
  | cons p rest ih =>
    simp only [List.lookup] at h
    by_cases hid : (id == p.1) = true
    · rw [hid] at h
      simp at h
    · rw [Bool.not_eq_true] at hid
      rw [hid] at h
      simp only [List.map_cons, List.mem_cons, not_or]
      exact ⟨fun he => by simp [he] at hid, ih h⟩

/-- Full characterization of `ViewCache.get` on a coherent cache: the
returned view is the inspector's actual answer, coherence is preserved,
the keys grow by exactly the freshly inspected identities, and an
`inspect` event is emitted exactly on a cache miss. -/
theorem get_spec (r : Router) (raw : String) (c : ViewCache) (id : Nat)
    (hc : Coherent r raw c) :
    (ViewCache.get r raw c id).1 = r.viewOf raw id ∧
    Coherent r raw (ViewCache.get r raw c id).2.1 ∧
    ((ViewCache.get r raw c id).2.1.keys = c.keys ∨
      (ViewCache.get r raw c id).2.1.keys = id :: c.keys) ∧
    (∀ j ∈ inspectIds (ViewCache.get r raw c id).2.2, j = id ∧ j ∉ c.keys) ∧
    (∀ j, j ∈ (ViewCache.get r raw c id).2.1.keys ↔
      j ∈ c.keys ∨ j ∈ inspectIds (ViewCache.get r raw c id).2.2) ∧
    ((ViewCache.get r raw c id).2.2 = [] ∨
      (ViewCache.get r raw c id).2.2 = [Ev.inspect id]) := by
  unfold ViewCache.get
  cases hl : c.views.lookup id with
  | some res =>
    refine ⟨(hc id res hl).symm ▸ rfl, hc, .inl rfl, ?_, ?_, .inl rfl⟩
    · intro j hj
      simp [inspectIds] at hj
    · intro j
      simp [inspectIds]
  | none =>
    refine ⟨rfl, ?_, .inr rfl, ?_, ?_, .inr rfl⟩
    · intro j res h
      simp only [List.lookup] at h
      by_cases hj : (j == id) = true
      · rw [hj] at h
        cases h
        rw [eq_of_beq hj]
      · rw [Bool.not_eq_true] at hj
        rw [hj] at h
        exact hc j res h
    · intro j hj
      simp only [inspectIds, List.filterMap_cons, List.filterMap_nil] at hj
      simp at hj
      subst hj
      exact ⟨rfl, not_mem_fst_of_lookup_eq_none hl⟩
    · intro j
      simp [ViewCache.keys, inspectIds]
      tauto

/-- trySource agrees with the position lookup: it returns the referenced
source exactly when the reference is in range and the source's
discriminator holds on its group's live view; the cache stays coherent
and at most the tried inspector is freshly invoked. -/
theorem trySource_spec (r : Router) (raw : String) (c : ViewCache) (ref : SRef)
    (hc : Coherent r raw c) :
    ((r.trySource raw c ref).1 =
      match r.refLookup ref with
      | some is => if r.posMatch raw is.1 is.2 then some is.2 else none
      | none => none) ∧
    Coherent r raw (r.trySource raw c ref).2.1 ∧
    (∀ j ∈ inspectIds (r.trySource raw c ref).2.2, j ∉ c.keys) ∧
    (inspectIds (r.trySource raw c ref).2.2).Nodup ∧
    (∀ j, j ∈ (r.trySource raw c ref).2.1.keys ↔
      j ∈ c.keys ∨ j ∈ inspectIds (r.trySource raw c ref).2.2) ∧
    (∀ e ∈ (r.trySource raw c ref).2.2, ∃ id, e = Ev.inspect id) := by
  unfold Router.trySource Router.refLookup
  by_cases h1 : ref.groupIdx = -1
  · simp only [h1, if_true]
    cases hsrc : r.defaultSources[ref.sourceIdx]? with
    | none =>
      refine ⟨rfl, hc, ?_, ?_, ?_, ?_⟩ <;> simp [inspectIds]
    | some src =>
      obtain ⟨g1, g2, g3, g4, g5, g6⟩ := get_spec r raw c r.defaultInspector hc
      cases hget : ViewCache.get r raw c r.defaultInspector with
      | mk vq rest =>
        obtain ⟨c1, ev⟩ := rest
        rw [hget] at g1 g2 g4 g5 g6
        simp only at g1 g2 g4 g5 g6
        cases vq with
        | none =>
          simp only []
          refine ⟨?_, g2, ?_, ?_, g5, ?_⟩
          · simp only [Router.posMatch, ← g1]
            rfl
          · intro j hj
            exact (g4 j hj).2
          · rcases g6 with h | h <;> subst h <;> simp [inspectIds]
          · rcases g6 with h | h <;> subst h <;> simp
        | some view =>
          simp only []
          by_cases hd : src.disc view = true
          · simp only [hd, if_true]
            refine ⟨?_, g2, ?_, ?_, g5, ?_⟩
            · simp only [Router.posMatch, ← g1, hd, if_true]
            · intro j hj
              exact (g4 j hj).2
            · rcases g6 with h | h <;> subst h <;> simp [inspectIds]
            · rcases g6 with h | h <;> subst h <;> simp
          · rw [Bool.not_eq_true] at hd
            simp only [hd, Bool.false_eq_true, if_false]
            refine ⟨?_, g2, ?_, ?_, g5, ?_⟩
            · simp only [Router.posMatch, ← g1, hd, Bool.false_eq_true, if_false]
            · intro j hj
              exact (g4 j hj).2
            · rcases g6 with h | h <;> subst h <;> simp [inspectIds]
            · rcases g6 with h | h <;> subst h <;> simp
  · simp only [h1, if_false]
    by_cases h2 : ref.groupIdx < 0
    · simp only [h2, if_true]
      refine ⟨by simp, hc, ?_, ?_, ?_, ?_⟩
      · simp [inspectIds]
      · simp [inspectIds]
      · intro j
        simp [inspectIds]
      · simp
    · simp only [h2, if_false]
      cases hg : r.groups[ref.groupIdx.toNat]? with
      | none =>
        refine ⟨by simp, hc, ?_, ?_, ?_, ?_⟩
        · simp [inspectIds]
        · simp [inspectIds]
        · intro j
          simp [inspectIds]
        · simp
      | some g =>
        simp only []
        cases hsrc : g.sources[ref.sourceIdx]? with
        | none =>
          refine ⟨by simp, hc, ?_, ?_, ?_, ?_⟩
          · simp [inspectIds]
          · simp [inspectIds]
          · intro j
            simp [inspectIds]
          · simp
        | some src =>
          obtain ⟨g1, g2, g3, g4, g5, g6⟩ := get_spec r raw c g.inspector hc
          cases hget : ViewCache.get r raw c g.inspector with
          | mk vq rest =>
            obtain ⟨c1, ev⟩ := rest
            rw [hget] at g1 g2 g4 g5 g6
            simp only at g1 g2 g4 g5 g6
            cases vq with
            | none =>
              simp only []
              refine ⟨?_, g2, ?_, ?_, g5, ?_⟩
              · simp only [Router.posMatch, ← g1]
                rfl
              · intro j hj
                exact (g4 j hj).2
              · rcases g6 with h | h <;> subst h <;> simp [inspectIds]
              · rcases g6 with h | h <;> subst h <;> simp
            | some view =>
              simp only []
              by_cases hd : src.disc view = true
              · simp only [hd, if_true]
                refine ⟨?_, g2, ?_, ?_, g5, ?_⟩
                · simp only [Router.posMatch, ← g1, hd, if_true]
                · intro j hj
                  exact (g4 j hj).2
                · rcases g6 with h | h <;> subst h <;> simp [inspectIds]
                · rcases g6 with h | h <;> subst h <;> simp
              · rw [Bool.not_eq_true] at hd
                simp only [hd, Bool.false_eq_true, if_false]
                refine ⟨?_, g2, ?_, ?_, g5, ?_⟩
                · simp only [Router.posMatch, ← g1, hd, Bool.false_eq_true, if_false]
                · intro j hj
                  exact (g4 j hj).2
                · rcases g6 with h | h <;> subst h <;> simp [inspectIds]
                · rcases g6 with h | h <;> subst h <;> simp

/-- The linear scan of a source list is the first find over the
correspondingly numbered entries. -/
theorem scanSources_eq_find (view : View) (srcs : List Source) (i : Nat) :
    scanSources view srcs i = (List.enumFrom i srcs).find? fun p => p.2.disc view := by
  induction srcs generalizing i with
  | nil => rfl
  | cons s rest ih =>
    simp only [scanSources, List.enumFrom, List.find?]
    by_cases hd : s.disc view = true
    · simp [hd]
    · rw [Bool.not_eq_true] at hd
      simp [hd, ih]

/-- No entry of a group matches when the group's inspector rejects the
raw input. -/
theorem find?_entries_none (r : Router) (raw : String) (iid : Nat)
    (mkRef : Nat → SRef) (srcs : List Source)
    (hview : r.viewOf raw iid = none) :
    ((srcs.enum.map fun p => (mkRef p.1, iid, p.2)).find? (r.entryMatches raw)) = none := by
  rw [List.find?_eq_none]
  intro e he
  simp only [List.mem_map] at he
  obtain ⟨p, hp, rfl⟩ := he
  simp [Router.entryMatches, Router.posMatch, hview]

/-- When the group's inspector accepts the raw input, the first matching
entry of the group is the linear scan's answer. -/
theorem find?_entries_some (r : Router) (raw : String) (iid : Nat)
    (mkRef : Nat → SRef) (srcs : List Source) (view : View)
    (hview : r.viewOf raw iid = some view) :
    ((srcs.enum.map fun p => (mkRef p.1, iid, p.2)).find? (r.entryMatches raw))
      = (scanSources view srcs 0).map fun p => (mkRef p.1, iid, p.2) := by
  rw [List.find?_map]
  have hp : (r.entryMatches raw ∘ fun p : Nat × Source => (mkRef p.1, iid, p.2))
      = fun p : Nat × Source => p.2.disc view := by
    funext p
    simp [Router.entryMatches, Router.posMatch, hview]
  rw [hp, scanSources_eq_find]
  rfl

theorem groupEntriesFrom_cons (g : Group) (rest : List Group) (gi : Nat) :
    groupEntriesFrom (g :: rest) gi
      = groupEntries gi g ++ groupEntriesFrom rest (gi + 1) := by
  simp [groupEntriesFrom, List.enumFrom]

/-- Composing two cache-threading steps preserves the trace and key
bookkeeping. -/
theorem trace_compose {k0 k1 k2 i1 i2 : List Nat}
    (h1 : ∀ j ∈ i1, j ∉ k0) (h2 : i1.Nodup)
    (h3 : ∀ j, j ∈ k1 ↔ j ∈ k0 ∨ j ∈ i1)
    (h4 : ∀ j ∈ i2, j ∉ k1) (h5 : i2.Nodup)
    (h6 : ∀ j, j ∈ k2 ↔ j ∈ k1 ∨ j ∈ i2) :
    (∀ j ∈ i1 ++ i2, j ∉ k0) ∧ (i1 ++ i2).Nodup ∧
    (∀ j, j ∈ k2 ↔ j ∈ k0 ∨ j ∈ i1 ++ i2) := by
  refine ⟨?_, ?_, ?_⟩
  · intro j hj
    rcases List.mem_append.1 hj with h | h
    · exact h1 j h
    · intro hk
      exact h4 j h ((h3 j).2 (.inl hk))
  · rw [List.nodup_append]
    exact ⟨h2, h5, fun a ha hb => h4 a hb ((h3 a).2 (.inr ha))⟩
  · intro j
    rw [h6, h3, List.mem_append]
    tauto

theorem inspectIds_append (e1 e2 : List Ev) :
    inspectIds (e1 ++ e2) = inspectIds e1 ++ inspectIds e2 := by
  simp [inspectIds]

/-- The custom-group scan agrees with the first find over the groups'
entries, keeps the cache coherent, and invokes each inspector at most
once and only on a cache miss. -/
theorem matchGroups_spec (r : Router) (raw : String) (gs : List Group) (gi : Nat)
    (c : ViewCache) (hc : Coherent r raw c) :
    ((r.matchGroups raw gs gi c).1 =
      ((groupEntriesFrom gs gi).find? (r.entryMatches raw)).map fun e => (e.1, e.2.2)) ∧
    Coherent r raw (r.matchGroups raw gs gi c).2.1 ∧
    (∀ j ∈ inspectIds (r.matchGroups raw gs gi c).2.2, j ∉ c.keys) ∧
    (inspectIds (r.matchGroups raw gs gi c).2.2).Nodup ∧
    (∀ j, j ∈ (r.matchGroups raw gs gi c).2.1.keys ↔
      j ∈ c.keys ∨ j ∈ inspectIds (r.matchGroups raw gs gi c).2.2) ∧
    (∀ e ∈ (r.matchGroups raw gs gi c).2.2, ∃ id, e = Ev.inspect id) := by
  induction gs generalizing gi c with
  | nil =>
    refine ⟨by simp [Router.matchGroups, groupEntriesFrom], hc, ?_, ?_, ?_, ?_⟩
    · simp [Router.matchGroups, inspectIds]
    · simp [Router.matchGroups, inspectIds]
    · intro j
      simp [Router.matchGroups, inspectIds]
    · simp [Router.matchGroups]
  | cons g rest ih =>
    obtain ⟨g1, g2, g3, g4, g5, g6⟩ := get_spec r raw c g.inspector hc
    simp only [Router.matchGroups]
    cases hget : ViewCache.get r raw c g.inspector with
    | mk vq pr =>
      obtain ⟨c1, ev⟩ := pr
      rw [hget] at g1 g2 g4 g5 g6
      simp only at g1 g2 g4 g5 g6
      have hone : (inspectIds ev).Nodup := by
        rcases g6 with h | h <;> subst h <;> simp [inspectIds]
      have hev : ∀ j ∈ inspectIds ev, j ∉ c.keys := fun j hj => (g4 j hj).2
      cases vq with
      | none =>
        simp only []
        obtain ⟨i1, i2, i3, i4, i5, i6⟩ := ih (gi + 1) c1 g2
        have hfind : (groupEntriesFrom (g :: rest) gi).find? (r.entryMatches raw)
            = (groupEntriesFrom rest (gi + 1)).find? (r.entryMatches raw) := by
          rw [groupEntriesFrom_cons, List.find?_append]
          have hn : (groupEntries gi g).find? (r.entryMatches raw) = none := by
            simp only [groupEntries]
            rw [find?_entries_none r raw g.inspector _ _ g1.symm]
          rw [hn]
          rfl
        obtain ⟨t1, t2, t3⟩ := trace_compose hev hone g5 i3 i4 i5
        refine ⟨by rw [hfind]; exact i1, i2, ?_, ?_, ?_, ?_⟩
        · intro j hj
          rw [inspectIds_append] at hj
          exact t1 j hj
        · rw [inspectIds_append]
          exact t2
        · intro j
          rw [inspectIds_append]
          exact t3 j
        · intro e he
          rcases List.mem_append.1 he with h | h
          · rcases g6 with hg6 | hg6 <;> subst hg6 <;> simp at h
            exact ⟨g.inspector, by simp [h]⟩
          · exact i6 e h
      | some view =>
        simp only []
        cases hscan : scanSources view g.sources 0 with
        | some p =>
          obtain ⟨si, src⟩ := p
          simp only []
          have hfind : (groupEntriesFrom (g :: rest) gi).find? (r.entryMatches raw)
              = some (⟨(gi : Int), si⟩, g.inspector, src) := by
            rw [groupEntriesFrom_cons, List.find?_append]
            have : (groupEntries gi g).find? (r.entryMatches raw)
                = some (⟨(gi : Int), si⟩, g.inspector, src) := by
              simp only [groupEntries]
              rw [find?_entries_some r raw g.inspector _ _ view g1.symm, hscan]
              rfl
            rw [this]
            rfl
          refine ⟨by rw [hfind]; rfl, g2, hev, hone, g5, ?_⟩
          · intro e he
            rcases g6 with hg6 | hg6 <;> subst hg6 <;> simp at he
            exact ⟨g.inspector, by simp [he]⟩
        | none =>
          simp only []
          obtain ⟨i1, i2, i3, i4, i5, i6⟩ := ih (gi + 1) c1 g2
          have hfind : (groupEntriesFrom (g :: rest) gi).find? (r.entryMatches raw)
              = (groupEntriesFrom rest (gi + 1)).find? (r.entryMatches raw) := by
            rw [groupEntriesFrom_cons, List.find?_append]
            have : (groupEntries gi g).find? (r.entryMatches raw) = none := by
              simp only [groupEntries]
              rw [find?_entries_some r raw g.inspector _ _ view g1.symm, hscan]
              rfl
            rw [this]
            rfl
          obtain ⟨t1, t2, t3⟩ := trace_compose hev hone g5 i3 i4 i5
          refine ⟨by rw [hfind]; exact i1, i2, ?_, ?_, ?_, ?_⟩
          · intro j hj
            rw [inspectIds_append] at hj
            exact t1 j hj
          · rw [inspectIds_append]
            exact t2
          · intro j
            rw [inspectIds_append]
            exact t3 j
          · intro e he
            rcases List.mem_append.1 he with h | h
            · rcases g6 with hg6 | hg6 <;> subst hg6 <;> simp at h
              exact ⟨g.inspector, by simp [h]⟩
            · exact i6 e h

/-- matchAll agrees with the spec's fallback search over the full scan
order, keeps the cache coherent, and invokes each inspector at most once
and only on a cache miss. -/
theorem matchAll_spec (r : Router) (raw : String) (c : ViewCache) (hc : Coherent r raw c) :
    ((r.matchAll raw c).1 = (r.specFirstMatch raw).map fun e => (e.1, e.2.2)) ∧
    Coherent r raw (r.matchAll raw c).2.1 ∧
    (∀ j ∈ inspectIds (r.matchAll raw c).2.2, j ∉ c.keys) ∧
    (inspectIds (r.matchAll raw c).2.2).Nodup ∧
    (∀ j, j ∈ (r.matchAll raw c).2.1.keys ↔
      j ∈ c.keys ∨ j ∈ inspectIds (r.matchAll raw c).2.2) ∧
    (∀ e ∈ (r.matchAll raw c).2.2, ∃ id, e = Ev.inspect id) := by
  unfold Router.matchAll Router.specFirstMatch Router.orderedEntries
  by_cases hemp : r.defaultSources.isEmpty = true
  · have hnil : r.defaultSources = [] := List.isEmpty_iff.1 hemp
    simp only [hemp, if_true, hnil, List.enum_nil, List.map_nil, List.nil_append]
    obtain ⟨m1, m2, m3, m4, m5, m6⟩ := matchGroups_spec r raw r.groups 0 c hc
    exact ⟨m1, m2, m3, m4, m5, m6⟩
  · rw [Bool.not_eq_true] at hemp
    simp only [hemp, Bool.false_eq_true, if_false]
    obtain ⟨g1, g2, g3, g4, g5, g6⟩ := get_spec r raw c r.defaultInspector hc
    cases hget : ViewCache.get r raw c r.defaultInspector with
    | mk vq pr =>
      obtain ⟨c1, ev⟩ := pr
      rw [hget] at g1 g2 g4 g5 g6
      simp only at g1 g2 g4 g5 g6
      have hone : (inspectIds ev).Nodup := by
        rcases g6 with h | h <;> subst h <;> simp [inspectIds]
      have hev : ∀ j ∈ inspectIds ev, j ∉ c.keys := fun j hj => (g4 j hj).2
      cases vq with
      | none =>
        simp only []
        obtain ⟨i1, i2, i3, i4, i5, i6⟩ := matchGroups_spec r raw r.groups 0 c1 g2
        have hfd : ((r.defaultSources.enum.map
            fun p => ((⟨-1, p.1⟩ : SRef), r.defaultInspector, p.2)).find?
              (r.entryMatches raw)) = none := by
          exact find?_entries_none r raw r.defaultInspector (fun i => ⟨-1, i⟩)
            r.defaultSources g1.symm
        rw [List.find?_append, hfd]
        obtain ⟨t1, t2, t3⟩ := trace_compose hev hone g5 i3 i4 i5
        refine ⟨?_, i2, ?_, ?_, ?_, ?_⟩
        · simp only [Option.none_or]
          exact i1
        · intro j hj
          rw [inspectIds_append] at hj
          exact t1 j hj
        · rw [inspectIds_append]
          exact t2
        · intro j
          rw [inspectIds_append]
          exact t3 j
        · intro e he
          rcases List.mem_append.1 he with h | h
          · rcases g6 with hg6 | hg6 <;> subst hg6 <;> simp at h
            exact ⟨r.defaultInspector, by simp [h]⟩
          · exact i6 e h
      | some view =>
        simp only []
        have hfd : ((r.defaultSources.enum.map
            fun p => ((⟨-1, p.1⟩ : SRef), r.defaultInspector, p.2)).find?
              (r.entryMatches raw))
            = (scanSources view r.defaultSources 0).map
              fun p => ((⟨-1, p.1⟩ : SRef), r.defaultInspector, p.2) := by
          exact find?_entries_some r raw r.defaultInspector (fun i => ⟨-1, i⟩)
            r.defaultSources view g1.symm
        cases hscan : scanSources view r.defaultSources 0 with
        | some p =>
          obtain ⟨si, src⟩ := p
          simp only []
          rw [List.find?_append, hfd, hscan]
          refine ⟨rfl, g2, hev, hone, g5, ?_⟩
          · intro e he
            rcases g6 with hg6 | hg6 <;> subst hg6 <;> simp at he
            exact ⟨r.defaultInspector, by simp [he]⟩
        | none =>
          simp only []
          obtain ⟨i1, i2, i3, i4, i5, i6⟩ := matchGroups_spec r raw r.groups 0 c1 g2
          rw [List.find?_append, hfd, hscan]
          obtain ⟨t1, t2, t3⟩ := trace_compose hev hone g5 i3 i4 i5
          refine ⟨?_, i2, ?_, ?_, ?_, ?_⟩
          · simpa using i1
          · intro j hj
            rw [inspectIds_append] at hj
            exact t1 j hj
          · rw [inspectIds_append]
            exact t2
          · intro j
            rw [inspectIds_append]
            exact t3 j
          · intro e he
            rcases List.mem_append.1 he with h | h
            · rcases g6 with hg6 | hg6 <;> subst hg6 <;> simp at h
              exact ⟨r.defaultInspector, by simp [h]⟩
            · exact i6 e h

theorem mem_groupEntries_iff {gi : Nat} {g : Group} {ref : SRef} {iid : Nat}
    {src : Source} :
    (ref, iid, src) ∈ groupEntries gi g ↔
      ref.groupIdx = (gi : Int) ∧ iid = g.inspector ∧
        g.sources[ref.sourceIdx]? = some src := by
  obtain ⟨gidx, sidx⟩ := ref
  simp only [groupEntries, List.mem_map, Prod.mk.injEq, SRef.mk.injEq]
  constructor
  · rintro ⟨⟨i, s⟩, hmem, ⟨h1, h2⟩, h3, h4⟩
    subst h1
    subst h2
    subst h3
    subst h4
    refine ⟨rfl, rfl, ?_⟩
    rwa [List.mk_mem_enum_iff_getElem?] at hmem
  · rintro ⟨h1, h2, h3⟩
    subst h1
    subst h2
    exact ⟨(sidx, src), List.mk_mem_enum_iff_getElem?.2 h3, ⟨rfl, rfl⟩, rfl, rfl⟩

theorem mem_groupEntriesFrom_iff {gs : List Group} {n : Nat} {ref : SRef}
    {iid : Nat} {src : Source} :
    (ref, iid, src) ∈ groupEntriesFrom gs n ↔
      ∃ k g, gs[k]? = some g ∧ ref.groupIdx = ((n + k : Nat) : Int) ∧
        iid = g.inspector ∧ g.sources[ref.sourceIdx]? = some src := by
  simp only [groupEntriesFrom, List.mem_flatMap]
  constructor
  · rintro ⟨⟨m, g⟩, hmem, hin⟩
    rw [List.mk_mem_enumFrom_iff_le_and_getElem?_sub] at hmem
    obtain ⟨hle, hget⟩ := hmem
    rw [mem_groupEntries_iff] at hin
    refine ⟨m - n, g, hget, ?_, hin.2.1, hin.2.2⟩
    rw [hin.1]
    congr 1
    omega
  · rintro ⟨k, g, hget, h1, h2, h3⟩
    refine ⟨(n + k, g), ?_, ?_⟩
    · rw [List.mk_mem_enumFrom_iff_le_and_getElem?_sub]
      exact ⟨Nat.le_add_right n k, by simpa using hget⟩
    · rw [mem_groupEntries_iff]
      exact ⟨h1, h2, h3⟩

theorem mem_defaultEntries_iff (r : Router) {ref : SRef} {iid : Nat} {src : Source} :
    (ref, iid, src) ∈ (r.defaultSources.enum.map
        fun p => ((⟨-1, p.1⟩ : SRef), r.defaultInspector, p.2)) ↔
      ref.groupIdx = -1 ∧ iid = r.defaultInspector ∧
        r.defaultSources[ref.sourceIdx]? = some src := by
  obtain ⟨gidx, sidx⟩ := ref
  simp only [List.mem_map, Prod.mk.injEq, SRef.mk.injEq]
  constructor
  · rintro ⟨⟨i, s⟩, hmem, ⟨h1, h2⟩, h3, h4⟩
    subst h1
    subst h2
    subst h3
    subst h4
    refine ⟨rfl, rfl, ?_⟩
    rwa [List.mk_mem_enum_iff_getElem?] at hmem
  · rintro ⟨h1, h2, h3⟩
    subst h1
    subst h2
    exact ⟨(sidx, src), List.mk_mem_enum_iff_getElem?.2 h3, ⟨rfl, rfl⟩, rfl, rfl⟩

/-- A stored reference resolves to a source and inspector exactly when
the corresponding entry is in the scan order. -/
theorem mem_orderedEntries_iff (r : Router) (ref : SRef) (iid : Nat) (src : Source) :
    (ref, iid, src) ∈ r.orderedEntries ↔ r.refLookup ref = some (iid, src) := by
  rw [Router.orderedEntries, List.mem_append, mem_defaultEntries_iff,
    mem_groupEntriesFrom_iff]
  unfold Router.refLookup
  by_cases h1 : ref.groupIdx = -1
  · simp only [h1, if_true]
    constructor
    · rintro (⟨_, h2, h3⟩ | ⟨k, g, hget, hk, _⟩)
      · rw [h3, h2]
      · exact absurd hk (by omega)
    · intro h
      cases hd : r.defaultSources[ref.sourceIdx]? with
      | none =>
        rw [hd] at h
        exact absurd h (by simp)
      | some s =>
        rw [hd] at h
        simp only [Option.some.injEq, Prod.mk.injEq] at h
        exact .inl ⟨trivial, h.1.symm, by rw [h.2]⟩
  · simp only [h1, if_false]
    by_cases h2 : ref.groupIdx < 0
    · simp only [h2, if_true]
      constructor
      · rintro (⟨hk, _, _⟩ | ⟨k, g, hget, hk, _⟩)
        · exact hk.elim
        · rw [hk] at h2
          exact absurd h2 (by omega)
      · intro h
        exact absurd h (by simp)
    · simp only [h2, if_false]
      constructor
      · rintro (⟨hk, _, _⟩ | ⟨k, g, hget, hk, hi, hs⟩)
        · exact hk.elim
        · rw [hk]
          simp only [Nat.zero_add, Int.toNat_natCast, hget, hs, hi]
      · intro h
        cases hg : r.groups[ref.groupIdx.toNat]? with
        | none =>
          rw [hg] at h
          exact absurd h (by simp)
        | some g =>
          rw [hg] at h
          simp only [] at h
          cases hs : g.sources[ref.sourceIdx]? with
          | none =>
            rw [hs] at h
            exact absurd h (by simp)
          | some s =>
            rw [hs] at h
            simp only [Option.some.injEq, Prod.mk.injEq] at h
            refine .inr ⟨ref.groupIdx.toNat, g, hg, ?_, h.1.symm, by rw [hs, h.2]⟩
            simp only [Nat.zero_add]
            omega

/-- Fast path: when the stored reference resolves and its discriminator
still matches the live view, the matcher returns that source without
entering the full fallback search. -/
theorem matchSource_fastpath (r : Router) (ref : SRef) (raw : String) (iid : Nat)
    (src : Source) (h1 : r.refLookup ref = some (iid, src))
    (h2 : r.posMatch raw iid src = true) :
    (r.matchSource (some ref) raw).1 = some (ref, src) ∧
    (r.matchSource (some ref) raw).2.1 = some ref ∧
    Ev.matchAllCall ∉ (r.matchSource (some ref) raw).2.2 ∧
    Ev.resolved ref ∈ (r.matchSource (some ref) raw).2.2 := by
  obtain ⟨t1, t2, t3, t4, t5, t6⟩ := trySource_spec r raw ⟨[]⟩ ref (coherent_empty r raw)
  have hres : (r.trySource raw ⟨[]⟩ ref).1 = some src := by
    rw [t1, h1]
    simp [h2]
  unfold Router.matchSource
  simp only []
  cases htr : r.trySource raw ⟨[]⟩ ref with
  | mk o pr =>
    obtain ⟨c1, ev⟩ := pr
    rw [htr] at hres t6
    simp only at hres t6
    subst hres
    refine ⟨rfl, rfl, ?_, ?_⟩
    · intro hmem
      rcases List.mem_append.1 hmem with h | h
      · obtain ⟨id, hid⟩ := t6 _ h
        simp at hid
      · simp at h
    · simp

/-- The matcher's result is sound: any returned source sits at the
returned reference and its discriminator holds on the live view of its
group; the stored LastMatchRef then points at it and the trace records
the resolution.  When nothing is returned, no entry matches at all and
the stored reference is unchanged. -/
theorem matchSource_sound (r : Router) (last : Option SRef) (raw : String) :
    (∀ ref src, (r.matchSource last raw).1 = some (ref, src) →
      ∃ iid, r.refLookup ref = some (iid, src) ∧ r.posMatch raw iid src = true ∧
        (r.matchSource last raw).2.1 = some ref ∧
        Ev.resolved ref ∈ (r.matchSource last raw).2.2) ∧
    ((r.matchSource last raw).1 = none → r.specFirstMatch raw = none ∧
      (r.matchSource last raw).2.1 = last) := by
  unfold Router.matchSource
  cases last with
  | none =>
    simp only []
    obtain ⟨m1, m2, m3, m4, m5⟩ := matchAll_spec r raw ⟨[]⟩ (coherent_empty r raw)
    cases hma : r.matchAll raw ⟨[]⟩ with
    | mk o pr =>
      obtain ⟨c1, ev⟩ := pr
      rw [hma] at m1
      simp only at m1
      cases o with
      | some p =>
        obtain ⟨ref2, src2⟩ := p
        simp only []
        constructor
        · intro ref src hres
          simp only [Option.some.injEq, Prod.mk.injEq] at hres
          obtain ⟨h1, h2⟩ := hres
          subst h1
          subst h2
          cases hsf : r.specFirstMatch raw with
          | none =>
            rw [hsf] at m1
            simp at m1
          | some e =>
            rw [hsf] at m1
            simp only [Option.map_some', Option.some.injEq] at m1
            have hmem := List.mem_of_find?_eq_some hsf
            have hmat := List.find?_some hsf
            obtain ⟨e1, e2, e3⟩ := e
            simp only [Prod.mk.injEq] at m1
            obtain ⟨h1, h2⟩ := m1
            subst h1
            subst h2
            refine ⟨e2, ?_, ?_, rfl, by simp⟩
            · exact (mem_orderedEntries_iff r _ _ _).1 hmem
            · exact hmat
        · intro hres
          simp at hres
      | none =>
        simp only []
        constructor
        · intro ref src hres
          simp at hres
        · intro _
          constructor
          · cases hsf : r.specFirstMatch raw with
            | none => rfl
            | some e =>
              rw [hsf] at m1
              simp at m1
          · trivial
  | some ref0 =>
    simp only []
    obtain ⟨t1, t2, t3, t4, t5, t6⟩ := trySource_spec r raw ⟨[]⟩ ref0 (coherent_empty r raw)
    cases htr : r.trySource raw ⟨[]⟩ ref0 with
    | mk o pr =>
      obtain ⟨c1, ev⟩ := pr
      rw [htr] at t1 t2
      simp only at t1 t2
      cases o with
      | some src0 =>
        simp only []
        constructor
        · intro ref src hres
          simp only [Option.some.injEq, Prod.mk.injEq] at hres
          obtain ⟨h1, h2⟩ := hres
          subst h1
          subst h2
          cases hrl : r.refLookup ref0 with
          | none =>
            rw [hrl] at t1
            simp at t1
          | some is =>
            obtain ⟨iid, s⟩ := is
            rw [hrl] at t1
            simp only at t1
            by_cases hpm : r.posMatch raw iid s = true
            · rw [if_pos hpm] at t1
              simp only [Option.some.injEq] at t1
              subst t1
              exact ⟨iid, rfl, hpm, rfl, by simp⟩
            · rw [if_neg hpm] at t1
              simp at t1
        · intro hres
          simp at hres
      | none =>
        simp only []
        obtain ⟨m1, m2, m3, m4, m5⟩ := matchAll_spec r raw c1 t2
        cases hma : r.matchAll raw c1 with
        | mk o2 pr2 =>
          obtain ⟨c2, ev2⟩ := pr2
          rw [hma] at m1
          simp only at m1
          cases o2 with
          | some p =>
            obtain ⟨ref2, src2⟩ := p
            simp only []
            constructor
            · intro ref src hres
              simp only [Option.some.injEq, Prod.mk.injEq] at hres
              obtain ⟨h1, h2⟩ := hres
              subst h1
              subst h2
              cases hsf : r.specFirstMatch raw with
              | none =>
                rw [hsf] at m1
                simp at m1
              | some e =>
                rw [hsf] at m1
                simp only [Option.map_some', Option.some.injEq] at m1
                have hmem := List.mem_of_find?_eq_some hsf
                have hmat := List.find?_some hsf
                obtain ⟨e1, e2, e3⟩ := e
                simp only [Prod.mk.injEq] at m1
                obtain ⟨h1, h2⟩ := m1
                subst h1
                subst h2
                refine ⟨e2, ?_, ?_, rfl, by simp⟩
                · exact (mem_orderedEntries_iff r _ _ _).1 hmem
                · exact hmat
            · intro hres
              simp at hres
          | none =>
            simp only []
            constructor
            · intro ref src hres
              simp at hres
            · intro _
              constructor
              · cases hsf : r.specFirstMatch raw with
                | none => rfl
                | some e =>
                  rw [hsf] at m1
                  simp at m1
              · trivial

/-- Within one resolution, every inspector identity appears at most once
among the recorded `Inspect` invocations. -/
theorem matchSource_nodup (r : Router) (last : Option SRef) (raw : String) :
    (inspectIds (r.matchSource last raw).2.2).Nodup := by
  unfold Router.matchSource
  cases last with
  | none =>
    simp only []
    obtain ⟨m1, m2, m3, m4, m5, m6⟩ := matchAll_spec r raw ⟨[]⟩ (coherent_empty r raw)
    cases hma : r.matchAll raw ⟨[]⟩ with
    | mk o pr =>
      obtain ⟨c1, ev⟩ := pr
      rw [hma] at m4
      simp only at m4
      cases o with
      | some p =>
        obtain ⟨ref2, src2⟩ := p
        simpa [inspectIds, List.filterMap_append] using m4
      | none =>
        simpa [inspectIds, List.filterMap_append] using m4
  | some ref0 =>
    simp only []
    obtain ⟨t1, t2, t3, t4, t5, t6⟩ := trySource_spec r raw ⟨[]⟩ ref0 (coherent_empty r raw)
    cases htr : r.trySource raw ⟨[]⟩ ref0 with
    | mk o pr =>
      obtain ⟨c1, ev⟩ := pr
      rw [htr] at t2 t3 t4 t5
      simp only at t2 t3 t4 t5
      cases o with
      | some src0 =>
        simpa [inspectIds, List.filterMap_append] using t4
      | none =>
        simp only []
        obtain ⟨m1, m2, m3, m4, m5, m6⟩ := matchAll_spec r raw c1 t2
        cases hma : r.matchAll raw c1 with
        | mk o2 pr2 =>
          obtain ⟨c2, ev2⟩ := pr2
          rw [hma] at m3 m4 m5
          simp only at m3 m4 m5
          obtain ⟨_, hnodup, _⟩ := trace_compose t3 t4 t5 m3 m4 m5
          cases o2 with
          | some p =>
            obtain ⟨ref2, src2⟩ := p
            simpa [inspectIds, List.filterMap_append] using hnodup
          | none =>
            simpa [inspectIds, List.filterMap_append] using hnodup

theorem noSourceLoop_spec (raw : String) (hooks : List (String → Option GoError))
    (i : Nat) :
    (noSourceLoop raw hooks i).1 = firstSomeResult (hooks.map fun f => f raw) ∧
    (noSourceLoop raw hooks i).2 =
      (List.range' i (shortCircuitCount (hooks.map fun f => f raw))).map Ev.gNoSource := by
  induction hooks generalizing i with
  | nil => simp [noSourceLoop, firstSomeResult, shortCircuitCount]
  | cons f rest ih =>
    simp only [noSourceLoop, List.map_cons]
    cases hf : f raw with
    | some e => simp [firstSomeResult, shortCircuitCount, List.range']
    | none =>
      obtain ⟨ih1, ih2⟩ := ih (i + 1)
      simp [firstSomeResult, shortCircuitCount, ih1, ih2, List.range']

theorem parseErrorLoop_spec (sourceName : String) (parseErr : GoError)
    (hooks : List (String → GoError → Option GoError)) (i : Nat) :
    (parseErrorLoop sourceName parseErr hooks i).1 =
      firstSomeResult (hooks.map fun f => f sourceName parseErr) ∧
    (parseErrorLoop sourceName parseErr hooks i).2 =
      (List.range' i
        (shortCircuitCount (hooks.map fun f => f sourceName parseErr))).map
          Ev.gParseError := by
  induction hooks generalizing i with
  | nil => simp [parseErrorLoop, firstSomeResult, shortCircuitCount]
  | cons f rest ih =>
    simp only [parseErrorLoop, List.map_cons]
    cases hf : f sourceName parseErr with
    | some e => simp [firstSomeResult, shortCircuitCount, List.range']
    | none =>
      obtain ⟨ih1, ih2⟩ := ih (i + 1)
      simp [firstSomeResult, shortCircuitCount, ih1, ih2, List.range']

theorem noHandlerCollect_spec (sourceName key : String)
    (hooks : List (String → String → Option GoError)) (i : Nat) :
    (noHandlerCollect sourceName key hooks i).1 =
      (hooks.filterMap fun f => f sourceName key) ∧
    (noHandlerCollect sourceName key hooks i).2 =
      (List.range' i hooks.length).map Ev.gNoHandler := by
  induction hooks generalizing i with
  | nil => simp [noHandlerCollect]
  | cons f rest ih =>
    simp only [noHandlerCollect, List.filterMap_cons, List.length_cons]
    obtain ⟨ih1, ih2⟩ := ih (i + 1)
    cases hf : f sourceName key with
    | some e => simp [ih1, ih2, List.range']
    | none => simp [ih1, ih2, List.range']

theorem errHookCollect_spec (ev : Nat → Ev) (sourceName key : String) (err : GoError)
    (hooks : List (String → String → GoError → Option GoError)) (i : Nat) :
    (errHookCollect ev sourceName key err hooks i).1 =
      (hooks.filterMap fun f => f sourceName key err) ∧
    (errHookCollect ev sourceName key err hooks i).2 =
      (List.range' i hooks.length).map ev := by
  induction hooks generalizing i with
  | nil => simp [errHookCollect]
  | cons f rest ih =>
    simp only [errHookCollect, List.filterMap_cons, List.length_cons]
    obtain ⟨ih1, ih2⟩ := ih (i + 1)
    cases hf : f sourceName key err with
    | some e => simp [ih1, ih2, List.range']
    | none => simp [ih1, ih2, List.range']

theorem hookOnly_map_range {f : Nat → Ev} (hf : ∀ n, hookOnly (f n))
    {l : List Nat} : ∀ e ∈ l.map f, hookOnly e := by
  intro e he
  obtain ⟨n, _, rfl⟩ := List.mem_map.1 he
  exact hf n

theorem inspectIds_eq_nil_of_hookOnly {l : List Ev} (h : ∀ e ∈ l, hookOnly e) :
    inspectIds l = [] := by
  induction l with
  | nil => rfl
  | cons e t ih =>
    have he := h e (by simp)
    have ht := ih fun x hx => h x (by simp [hx])
    cases e <;> simp [hookOnly] at he <;> simp [inspectIds] at ht ⊢ <;> exact ht

theorem matchAllCall_not_mem_of_hookOnly {l : List Ev} (h : ∀ e ∈ l, hookOnly e) :
    Ev.matchAllCall ∉ l := by
  intro hmem
  have := h _ hmem
  simp [hookOnly] at this

theorem handleNoSource_hookOnly (r : Router) (raw : String) :
    ∀ e ∈ (r.handleNoSource raw).2, hookOnly e := by
  obtain ⟨_, h2⟩ := noSourceLoop_spec raw r.hooks.onNoSource 0
  unfold Router.handleNoSource
  simp only [h2]
  exact hookOnly_map_range fun n => by simp [hookOnly]

theorem handleParseError_hookOnly (r : Router) (src : Source) (perr : GoError) :
    ∀ e ∈ (r.handleParseError src perr).2, hookOnly e := by
  obtain ⟨_, h2⟩ := parseErrorLoop_spec src.name perr r.hooks.onParseError 0
  unfold Router.handleParseError
  simp only [h2]
  exact hookOnly_map_range fun n => by simp [hookOnly]

theorem handleNoHandler_hookOnly (r : Router) (src : Source) (sourceName key : String)
    (replier : Option Replier) :
    ∀ e ∈ (r.handleNoHandler src sourceName key replier).2, hookOnly e := by
  obtain ⟨_, h2⟩ := noHandlerCollect_spec sourceName key r.hooks.onNoHandler 0
  intro e he
  unfold Router.handleNoHandler at he
  simp only [] at he
  have hg : ∀ x ∈ (noHandlerCollect sourceName key r.hooks.onNoHandler 0).2,
      hookOnly x := by
    rw [h2]
    exact hookOnly_map_range fun n => by simp [hookOnly]
  cases hsrc : src.onNoHandler with
  | none =>
    rw [hsrc] at he
    exact hg e he
  | some h =>
    rw [hsrc] at he
    simp only at he
    rcases hh : h key with _ | e2 <;> rw [hh] at he <;> simp only at he <;>
      rcases List.mem_append.1 he with hx | hx
    · exact hg e hx
    · simp only [List.mem_singleton] at hx
      subst hx
      simp [hookOnly]
    · exact hg e hx
    · simp only [List.mem_singleton] at hx
      subst hx
      simp [hookOnly]

theorem handleUnmarshalError_hookOnly (r : Router) (src : Source)
    (sourceName key : String) (err : GoError) (replier : Option Replier) :
    ∀ e ∈ (r.handleUnmarshalError src sourceName key err replier).2, hookOnly e := by
  obtain ⟨_, h2⟩ := errHookCollect_spec Ev.gUnmarshal sourceName key err
    r.hooks.onUnmarshalError 0
  intro e he
  unfold Router.handleUnmarshalError at he
  simp only [] at he
  have hg : ∀ x ∈ (errHookCollect Ev.gUnmarshal sourceName key err
      r.hooks.onUnmarshalError 0).2, hookOnly x := by
    rw [h2]
    exact hookOnly_map_range fun n => by simp [hookOnly]
  cases hsrc : src.onUnmarshalError with
  | none =>
    rw [hsrc] at he
    exact hg e he
  | some h =>
    rw [hsrc] at he
    simp only at he
    rcases hh : h key err with _ | e2 <;> rw [hh] at he <;> simp only at he <;>
      rcases List.mem_append.1 he with hx | hx
    · exact hg e hx
    · simp only [List.mem_singleton] at hx
      subst hx
      simp [hookOnly]
    · exact hg e hx
    · simp only [List.mem_singleton] at hx
      subst hx
      simp [hookOnly]

theorem handleValidationError_hookOnly (r : Router) (src : Source)
    (sourceName key : String) (err : GoError) (replier : Option Replier) :
    ∀ e ∈ (r.handleValidationError src sourceName key err replier).2, hookOnly e := by
  obtain ⟨_, h2⟩ := errHookCollect_spec Ev.gValidation sourceName key err
    r.hooks.onValidationError 0
  intro e he
  unfold Router.handleValidationError at he
  simp only [] at he
  have hg : ∀ x ∈ (errHookCollect Ev.gValidation sourceName key err
      r.hooks.onValidationError 0).2, hookOnly x := by
    rw [h2]
    exact hookOnly_map_range fun n => by simp [hookOnly]
  cases hsrc : src.onValidationError with
  | none =>
    rw [hsrc] at he
    exact hg e he
  | some h =>
    rw [hsrc] at he
    simp only at he
    rcases hh : h key err with _ | e2 <;> rw [hh] at he <;> simp only at he <;>
      rcases List.mem_append.1 he with hx | hx
    · exact hg e hx
    · simp only [List.mem_singleton] at hx
      subst hx
      simp [hookOnly]
    · exact hg e hx
    · simp only [List.mem_singleton] at hx
      subst hx
      simp [hookOnly]

/-- A Process trace is the matcher's trace followed by decision-hook
events only. -/
theorem Process_trace_decomp (r : Router) (last : Option SRef) (raw : String) :
    ∃ tail, (r.Process last raw).2.2 = (r.matchSource last raw).2.2 ++ tail ∧
      ∀ e ∈ tail, hookOnly e := by
  unfold Router.Process
  cases hms : r.matchSource last raw with
  | mk o pr =>
    obtain ⟨last1, ev⟩ := pr
    cases o with
    | none =>
      exact ⟨(r.handleNoSource raw).2, rfl, handleNoSource_hookOnly r raw⟩
    | some p =>
      obtain ⟨ref, src⟩ := p
      simp only []
      cases hp : src.parse raw with
      | error perr =>
        exact ⟨(r.handleParseError src perr).2, rfl, handleParseError_hookOnly r src perr⟩
      | ok msg =>
        simp only []
        cases hh : r.handlers msg.key with
        | none =>
          exact ⟨(r.handleNoHandler src src.name msg.key msg.replier).2, rfl,
            handleNoHandler_hookOnly r src src.name msg.key msg.replier⟩
        | some handler =>
          simp only []
          cases hu : errAsUnmarshal (handler msg.payload).2 with
          | some inner =>
            exact ⟨(r.handleUnmarshalError src src.name msg.key inner msg.replier).2,
              rfl, handleUnmarshalError_hookOnly r src src.name msg.key inner msg.replier⟩
          | none =>
            simp only []
            cases hv : errAsValidation (handler msg.payload).2 with
            | some inner =>
              exact ⟨(r.handleValidationError src src.name msg.key inner msg.replier).2,
                rfl, handleValidationError_hookOnly r src src.name msg.key inner
                  msg.replier⟩
            | none =>
              simp only []
              cases hrep : msg.replier with
              | some rep =>
                simp only []
                cases he : (handler msg.payload).2 with
                | some e => exact ⟨[], by simp, by simp⟩
                | none => exact ⟨[], by simp, by simp⟩
              | none => exact ⟨[], by simp, by simp⟩

/-- The matcher records only inspector invocations, the fallback-search
marker and the resolution marker — never decision-hook events. -/
theorem matchSource_events (r : Router) (last : Option SRef) (raw : String) :
    ∀ e ∈ (r.matchSource last raw).2.2, ¬ hookOnly e := by
  unfold Router.matchSource
  cases last with
  | none =>
    simp only []
    obtain ⟨m1, m2, m3, m4, m5, m6⟩ := matchAll_spec r raw ⟨[]⟩ (coherent_empty r raw)
    cases hma : r.matchAll raw ⟨[]⟩ with
    | mk o pr =>
      obtain ⟨c1, ev⟩ := pr
      rw [hma] at m6
      simp only at m6
      cases o with
      | some p =>
        obtain ⟨ref2, src2⟩ := p
        intro e he
        rcases List.mem_cons.1 he with h | h
        · subst h
          simp [hookOnly]
        · rcases List.mem_append.1 h with h2 | h2
          · obtain ⟨id, rfl⟩ := m6 e h2
            simp [hookOnly]
          · rw [List.mem_singleton] at h2
            subst h2
            simp [hookOnly]
      | none =>
        intro e he
        rcases List.mem_cons.1 he with h | h
        · subst h
          simp [hookOnly]
        · obtain ⟨id, rfl⟩ := m6 e h
          simp [hookOnly]
  | some ref0 =>
    simp only []
    obtain ⟨t1, t2, t3, t4, t5, t6⟩ := trySource_spec r raw ⟨[]⟩ ref0 (coherent_empty r raw)
    cases htr : r.trySource raw ⟨[]⟩ ref0 with
    | mk o pr =>
      obtain ⟨c1, ev⟩ := pr
      rw [htr] at t2 t6
      simp only at t2 t6
      cases o with
      | some src0 =>
        intro e he
        rcases List.mem_append.1 he with h | h
        · obtain ⟨id, rfl⟩ := t6 e h
          simp [hookOnly]
        · rw [List.mem_singleton] at h
          subst h
          simp [hookOnly]
      | none =>
        simp only []
        obtain ⟨m1, m2, m3, m4, m5, m6⟩ := matchAll_spec r raw c1 t2
        cases hma : r.matchAll raw c1 with
        | mk o2 pr2 =>
          obtain ⟨c2, ev2⟩ := pr2
          rw [hma] at m6
          simp only at m6
          cases o2 with
          | some p =>
            obtain ⟨ref2, src2⟩ := p
            intro e he
            rcases List.mem_append.1 he with h | h
            · rcases List.mem_append.1 h with h2 | h2
              · obtain ⟨id, rfl⟩ := t6 e h2
                simp [hookOnly]
              · rcases List.mem_cons.1 h2 with h3 | h3
                · subst h3
                  simp [hookOnly]
                · obtain ⟨id, rfl⟩ := m6 e h3
                  simp [hookOnly]
            · rw [List.mem_singleton] at h
              subst h
              simp [hookOnly]
          | none =>
            intro e he
            rcases List.mem_append.1 he with h | h
            · obtain ⟨id, rfl⟩ := t6 e h
              simp [hookOnly]
            · rcases List.mem_cons.1 h with h2 | h2
              · subst h2
                simp [hookOnly]
              · obtain ⟨id, rfl⟩ := m6 e h2
                simp [hookOnly]

/-- Process on an unmatched message: the result and trailing trace come
from handleNoSource. -/
theorem Process_noSource_path (r : Router) (last : Option SRef) (raw : String)
    (hms : (r.matchSource last raw).1 = none) :
    (r.Process last raw).1 = (r.handleNoSource raw).1 ∧
    (r.Process last raw).2.2 = (r.matchSource last raw).2.2 ++ (r.handleNoSource raw).2 := by
  unfold Router.Process
  cases hms' : r.matchSource last raw with
  | mk o pr =>
    obtain ⟨last1, ev⟩ := pr
    rw [hms'] at hms
    simp only at hms
    subst hms
    exact ⟨rfl, rfl⟩

/-- Process on a matched message whose key has no handler: the result and
trailing trace come from handleNoHandler. -/
theorem Process_noHandler_path (r : Router) (last : Option SRef) (raw : String)
    (ref : SRef) (src : Source) (msg : Message)
    (hms : (r.matchSource last raw).1 = some (ref, src))
    (hp : src.parse raw = .ok msg)
    (hh : r.handlers msg.key = none) :
    (r.Process last raw).1 = (r.handleNoHandler src src.name msg.key msg.replier).1 ∧
    (r.Process last raw).2.2 = (r.matchSource last raw).2.2 ++
      (r.handleNoHandler src src.name msg.key msg.replier).2 := by
  unfold Router.Process
  cases hms' : r.matchSource last raw with
  | mk o pr =>
    obtain ⟨last1, ev⟩ := pr
    rw [hms'] at hms
    simp only at hms
    subst hms
    simp only [hp]
    simp only [hh]
    constructor
    · first | rfl | trivial
    · first | rfl | trivial

/-- Process on a message whose handler reported a validation failure: the
result comes from handleValidationError, fed the error unwrapped from the
validation tag. -/
theorem Process_validation_path (r : Router) (last : Option SRef) (raw : String)
    (ref : SRef) (src : Source) (msg : Message) (handler : Invoker) (inner : GoError)
    (hms : (r.matchSource last raw).1 = some (ref, src))
    (hp : src.parse raw = .ok msg)
    (hh : r.handlers msg.key = some handler)
    (hu : errAsUnmarshal (handler msg.payload).2 = none)
    (hv : errAsValidation (handler msg.payload).2 = some inner) :
    (r.Process last raw).1 =
      (r.handleValidationError src src.name msg.key inner msg.replier).1 := by
  unfold Router.Process
  cases hms' : r.matchSource last raw with
  | mk o pr =>
    obtain ⟨last1, ev⟩ := pr
    rw [hms'] at hms
    simp only at hms
    subst hms
    simp only [hp]
    simp only [hh]
    simp only [hu]
    simp only [hv]

theorem find?_eq_of_filter_singleton {α : Type} {p : α → Bool} {l : List α} {e : α}
    (h : l.filter p = [e]) : l.find? p = some e := by
  induction l with
  | nil => simp at h
  | cons a t ih =>
    by_cases ha : p a = true
    · rw [List.filter_cons_of_pos ha] at h
      simp only [List.cons.injEq] at h
      rw [List.find?_cons_of_pos _ ha, h.1]
    · rw [List.filter_cons_of_neg ha] at h
      rw [List.find?_cons_of_neg _ ha]
      exact ih h

/-- C10: vacuous-match asymmetry of the check-less discriminators: for
every View, `Or` of zero sub-discriminators rejects, while `And` of zero
sub-discriminators and `HasFields` of zero paths both accept. -/
theorem c10_vacuous_match_asymmetry (v : View) :
    (Or []).Match v = false ∧ (And []).Match v = true ∧
      (HasFields []).Match v = true :=
  ⟨rfl, rfl, rfl⟩

/-- C5: within a single Process call, each Inspector is invoked at most
once, no matter how many sources or groups reference it (the per-call
cache is keyed by inspector identity), and a failed inspection is cached
exactly like a successful one, so the bound holds regardless of the
inspection outcome. -/
theorem c5_inspector_invoked_at_most_once (r : Router) (last : Option SRef)
    (raw : String) (id : Nat) :
    (inspectIds (r.Process last raw).2.2).count id ≤ 1 := by
  obtain ⟨tail, hdec, htail⟩ := Process_trace_decomp r last raw
  rw [hdec, inspectIds_append, inspectIds_eq_nil_of_hookOnly htail, List.append_nil]
  exact List.nodup_iff_count_le_one.1 (matchSource_nodup r last raw) id

/-- C9: the fallback search agrees with the spec's scan order — default
group first in registration order, then custom groups in registration
order, first match wins (`specFirstMatch` is by definition the first find
over that order); each inspector that is consulted is consulted exactly
once (never twice, thanks to the per-call cache); a group whose inspector
rejects the input matches nothing and contributes no error; and a
successful resolution atomically stores the found position in
LastMatchRef. -/
theorem c9_matchAll_order_cache_update (r : Router) (raw : String) :
    ((r.matchAll raw ⟨[]⟩).1 = (r.specFirstMatch raw).map fun e => (e.1, e.2.2)) ∧
    (inspectIds (r.matchAll raw ⟨[]⟩).2.2).Nodup ∧
    (∀ e ∈ r.orderedEntries, r.viewOf raw e.2.1 = none →
      r.entryMatches raw e = false) ∧
    (∀ last ref src, (r.matchSource last raw).1 = some (ref, src) →
      (r.matchSource last raw).2.1 = some ref) := by
  obtain ⟨m1, _, _, m4, _, _⟩ := matchAll_spec r raw ⟨[]⟩ (coherent_empty r raw)
  refine ⟨m1, m4, ?_, ?_⟩
  · intro e _ hview
    simp [Router.entryMatches, Router.posMatch, hview]
  · intro last ref src hres
    obtain ⟨hsound, _⟩ := matchSource_sound r last raw
    exact (hsound ref src hres).choose_spec.2.2.1

/-- C1: when exactly one registered source's discriminator holds on the
per-group view of the raw input, the matcher resolves that source — for
every LastMatchRef value, hence for every registration history — and
Process records the resolution; moreover (unconditionally on uniqueness)
the matcher never returns a source whose discriminator does not hold on
the live view of its group, so a stale LastMatchRef can never cause
misrouting. -/
theorem c1_unique_discriminator_resolution (r : Router) (raw : String) (e : Entry)
    (huniq : r.orderedEntries.filter (r.entryMatches raw) = [e]) :
    (∀ last, (r.matchSource last raw).1 = some (e.1, e.2.2) ∧
      Ev.resolved e.1 ∈ (r.Process last raw).2.2) ∧
    (∀ last ref src, (r.matchSource last raw).1 = some (ref, src) →
      ∃ iid, r.refLookup ref = some (iid, src) ∧ r.posMatch raw iid src = true) := by
  have hfind : r.specFirstMatch raw = some e := find?_eq_of_filter_singleton huniq
  constructor
  · intro last
    obtain ⟨hsound, hnone⟩ := matchSource_sound r last raw
    cases hres : (r.matchSource last raw).1 with
    | none =>
      have hcontra := (hnone hres).1
      rw [hfind] at hcontra
      simp at hcontra
    | some p =>
      obtain ⟨ref, src⟩ := p
      obtain ⟨iid, hrl, hpm, hstate, hresolved⟩ := hsound ref src hres
      have hmem : (ref, iid, src) ∈ r.orderedEntries :=
        (mem_orderedEntries_iff r ref iid src).2 hrl
      have hfil : (ref, iid, src) ∈ r.orderedEntries.filter (r.entryMatches raw) :=
        List.mem_filter.2 ⟨hmem, hpm⟩
      rw [huniq, List.mem_singleton] at hfil
      subst hfil
      refine ⟨rfl, ?_⟩
      obtain ⟨tail, hdec, _⟩ := Process_trace_decomp r last raw
      rw [hdec]
      exact List.mem_append.2 (.inl hresolved)
  · intro last ref src hres
    obtain ⟨hsound, _⟩ := matchSource_sound r last raw
    obtain ⟨iid, hrl, hpm, _, _⟩ := hsound ref src hres
    exact ⟨iid, hrl, hpm⟩

/-- C4: after a call in which the matcher resolved a source, a second call
on a structurally identical input (same per-group discriminator
outcomes) with the LastMatchRef left by the first call resolves the same
source through the fast path and never enters the full search matchAll. -/
theorem c4_second_identical_message_fast_path (r : Router) (last : Option SRef)
    (raw raw2 : String) (ref : SRef) (src : Source)
    (h1 : (r.matchSource last raw).1 = some (ref, src))
    (hstruct : ∀ iid s, r.posMatch raw iid s = r.posMatch raw2 iid s) :
    (r.matchSource (r.matchSource last raw).2.1 raw2).1 = some (ref, src) ∧
    Ev.resolved ref ∈ (r.Process (r.matchSource last raw).2.1 raw2).2.2 ∧
    Ev.matchAllCall ∉ (r.Process (r.matchSource last raw).2.1 raw2).2.2 := by
  obtain ⟨hsound, _⟩ := matchSource_sound r last raw
  obtain ⟨iid, hrl, hpm, hstate, _⟩ := hsound ref src h1
  rw [hstate]
  obtain ⟨f1, f2, f3, f4⟩ := matchSource_fastpath r ref raw2 iid src hrl
    (by rw [← hstruct]; exact hpm)
  refine ⟨f1, ?_, ?_⟩
  · obtain ⟨tail, hdec, _⟩ := Process_trace_decomp r (some ref) raw2
    rw [hdec]
    exact List.mem_append.2 (.inl f4)
  · obtain ⟨tail, hdec, htail⟩ := Process_trace_decomp r (some ref) raw2
    rw [hdec]
    intro hmem
    rcases List.mem_append.1 hmem with h | h
    · exact f3 h
    · exact matchAllCall_not_mem_of_hookOnly htail h

/-- C6: when the resolved message carries a Replier, the callback's return
value becomes Process's return value, superseding the router's prior
conclusion: on a handler error, `Fail`'s result is returned (so a callback
returning nil yields nil even after a handler error, and a callback error
overrides the handler error); on success, `Reply`'s result is returned. -/
theorem c6_completion_callback_supersedes (r : Router) (last : Option SRef)
    (raw : String) (ref : SRef) (src : Source) (msg : Message) (handler : Invoker)
    (rep : Replier)
    (hms : (r.matchSource last raw).1 = some (ref, src))
    (hp : src.parse raw = .ok msg)
    (hh : r.handlers msg.key = some handler)
    (hu : errAsUnmarshal (handler msg.payload).2 = none)
    (hv : errAsValidation (handler msg.payload).2 = none)
    (hrep : msg.replier = some rep) :
    (r.Process last raw).1 =
      match (handler msg.payload).2 with
      | some e => rep.fail e
      | none => rep.reply (handler msg.payload).1 := by
  unfold Router.Process
  cases hms' : r.matchSource last raw with
  | mk o pr =>
    obtain ⟨last1, ev⟩ := pr
    rw [hms'] at hms
    simp only at hms
    subst hms
    simp only [hp]
    simp only [hh]
    simp only [hu]
    simp only [hv]
    simp only [hrep]
    cases he : (handler msg.payload).2 with
    | some e => rfl
    | none => rfl

/-- C8: with two global OnNoHandler hooks registered in order, returning
E1 and E2, a message whose routing key has no handler makes Process
return E1, and both hooks are recorded as invoked. -/
theorem c8_first_error_wins_both_invoked (r : Router) (last : Option SRef)
    (raw : String) (ref : SRef) (src : Source) (msg : Message)
    (f1 f2 : String → String → Option GoError) (e1 e2 : GoError)
    (hhooks : r.hooks.onNoHandler = [f1, f2])
    (he1 : f1 src.name msg.key = some e1)
    (he2 : f2 src.name msg.key = some e2)
    (hms : (r.matchSource last raw).1 = some (ref, src))
    (hp : src.parse raw = .ok msg)
    (hh : r.handlers msg.key = none)
    (hsrc : src.onNoHandler = none)
    (hrep : msg.replier = none) :
    (r.Process last raw).1 = some e1 ∧
    Ev.gNoHandler 0 ∈ (r.Process last raw).2.2 ∧
    Ev.gNoHandler 1 ∈ (r.Process last raw).2.2 := by
  obtain ⟨hp1, hp2⟩ := Process_noHandler_path r last raw ref src msg hms hp hh
  have hnh : r.handleNoHandler src src.name msg.key msg.replier =
      (some e1, [Ev.gNoHandler 0, Ev.gNoHandler 1]) := by
    unfold Router.handleNoHandler
    rw [hhooks, hsrc, hrep]
    simp [noHandlerCollect, he1, he2]
  rw [hp1, hp2, hnh]
  refine ⟨rfl, ?_, ?_⟩ <;> simp

/-- C2 (amended): when no source matches, the global OnNoSource hooks run
in registration order only until the first non-nil error, which Process
returns immediately — hooks after it are not invoked (hook `i` is invoked
exactly when `i` is below the short-circuit point); if all registered
hooks return nil, Process returns nil; with zero hooks it returns the
fixed "no source matched message" error. -/
theorem c2_no_source_first_error_short_circuits (r : Router) (last : Option SRef)
    (raw : String) (hms : (r.matchSource last raw).1 = none) :
    ((r.Process last raw).1 =
      match firstSomeResult (r.hooks.onNoSource.map fun f => f raw) with
      | some e => some e
      | none =>
        if r.hooks.onNoSource.isEmpty then some (GoError.mk "no source matched message")
        else none) ∧
    (∀ i, Ev.gNoSource i ∈ (r.Process last raw).2.2 ↔
      i < shortCircuitCount (r.hooks.onNoSource.map fun f => f raw)) := by
  obtain ⟨hp1, hp2⟩ := Process_noSource_path r last raw hms
  obtain ⟨hl1, hl2⟩ := noSourceLoop_spec raw r.hooks.onNoSource 0
  constructor
  · rw [hp1]
    unfold Router.handleNoSource
    simp only []
    rw [hl1]
  · intro i
    rw [hp2]
    have htr : (r.handleNoSource raw).2 =
        (List.range' 0 (shortCircuitCount (r.hooks.onNoSource.map fun f => f raw))).map
          Ev.gNoSource := by
      unfold Router.handleNoSource
      simp only []
      exact hl2
    rw [htr]
    generalize shortCircuitCount (r.hooks.onNoSource.map fun f => f raw) = k
    constructor
    · intro hmem
      rcases List.mem_append.1 hmem with h | h
      · exact absurd trivial (matchSource_events r last raw _ h)
      · obtain ⟨n, hn, heq⟩ := List.mem_map.1 h
        have hni : n = i := by
          injection heq
        subst hni
        rw [List.mem_range'_1] at hn
        omega
    · intro hlt
      apply List.mem_append.2
      right
      apply List.mem_map.2
      refine ⟨i, ?_, rfl⟩
      rw [List.mem_range'_1]
      omega

/-- C3 (amended): for OnNoHandler, when no applicable hook returned an
error, the skip-vs-fallback decision counts only the *global* hooks: if
at least one global hook is registered Process returns nil, but with zero
global hooks the synthesized "no handler for key" error is returned even
when the source-specific hook was present, was invoked, and returned
nil. -/
theorem c3_skip_counts_only_global_hooks (r : Router) (last : Option SRef)
    (raw : String) (ref : SRef) (src : Source) (msg : Message)
    (hms : (r.matchSource last raw).1 = some (ref, src))
    (hp : src.parse raw = .ok msg)
    (hh : r.handlers msg.key = none)
    (hrep : msg.replier = none)
    (hglob : ∀ f ∈ r.hooks.onNoHandler, f src.name msg.key = none)
    (hsrc : ∀ h, src.onNoHandler = some h → h msg.key = none) :
    (r.Process last raw).1 =
      (if r.hooks.onNoHandler.isEmpty then
        some (GoError.mk ("no handler for key: " ++ msg.key))
      else none) := by
  obtain ⟨hp1, _⟩ := Process_noHandler_path r last raw ref src msg hms hp hh
  rw [hp1]
  obtain ⟨hc1, _⟩ := noHandlerCollect_spec src.name msg.key r.hooks.onNoHandler 0
  have hcnil : (noHandlerCollect src.name msg.key r.hooks.onNoHandler 0).1 = [] := by
    rw [hc1]
    exact List.filterMap_eq_nil_iff.2 hglob
  unfold Router.handleNoHandler
  rw [hrep]
  simp only []
  cases hso : src.onNoHandler with
  | none =>
    rw [hcnil]
    by_cases hemp : r.hooks.onNoHandler.isEmpty = true <;> simp [hemp]
  | some h =>
    simp only []
    rw [hsrc h hso, hcnil]
    by_cases hemp : r.hooks.onNoHandler.isEmpty = true <;> simp [hemp]

/-- C7 (amended): a payload that decodes but fails self-validation, with
no OnValidationError hooks registered and no Replier, makes Process
return the non-nil synthesized error wrapping the validation failure —
but the `validationError` tag is stripped before wrapping (the handler
passes on `verr.err`), so matching the returned error for the
ValidationFailed kind reduces to whatever the user's own validation error
contains: the kind is distinguishable from UnmarshalFailed only by the
wrapping message, not by the tag. -/
theorem c7_validation_error_tag_stripped {T : Type} (r : Router) (last : Option SRef)
    (raw : String) (ref : SRef) (src : Source) (msg : Message)
    (decode : String → Except GoError T) (validate : T → Option GoError)
    (run : T → Option GoError) (data : T) (verr : GoError)
    (hms : (r.matchSource last raw).1 = some (ref, src))
    (hp : src.parse raw = .ok msg)
    (hh : r.handlers msg.key = some (registerProcInvoker decode validate run))
    (hdec : decode msg.payload = .ok data)
    (hval : validate data = some verr)
    (hvu : verr.asUnmarshal = none)
    (hglob : r.hooks.onValidationError = [])
    (hsrcv : src.onValidationError = none)
    (hrep : msg.replier = none) :
    (r.Process last raw).1 = some (GoError.wrap "validate payload" verr) ∧
    (GoError.wrap "validate payload" verr).asValidation = verr.asValidation := by
  have hout : registerProcInvoker decode validate run msg.payload =
      (none, some (GoError.validationTag verr)) := by
    unfold registerProcInvoker unmarshalAndValidate
    rw [hdec]
    simp only []
    rw [hval]
  have hu : errAsUnmarshal (registerProcInvoker decode validate run msg.payload).2
      = none := by
    rw [hout]
    simp only [errAsUnmarshal, GoError.asUnmarshal]
    exact hvu
  have hv : errAsValidation (registerProcInvoker decode validate run msg.payload).2
      = some verr := by
    rw [hout]
    rfl
  have hpath := Process_validation_path r last raw ref src msg
    (registerProcInvoker decode validate run) verr hms hp hh hu hv
  rw [hpath]
  constructor
  · unfold Router.handleValidationError
    rw [hglob, hsrcv, hrep]
    simp [errHookCollect]
  · rfl

/-- C1 witness: on a router with exactly one matching source, the matcher
resolves it with an empty LastMatchRef and Process records the
resolution. -/
theorem c1_witness :
    (sampleRouterC6.matchSource none "w").1 = some (⟨-1, 0⟩, sampleSourceC6) ∧
    Ev.resolved ⟨-1, 0⟩ ∈ (sampleRouterC6.Process none "w").2.2 :=
  (c1_unique_discriminator_resolution sampleRouterC6 "w"
    ((⟨-1, 0⟩ : SRef), 0, sampleSourceC6) rfl).1 none

/-- C2 counterexample: with two OnNoSource hooks both returning errors,
the first error is returned but the second hook is never invoked — the
loop short-circuits, refuting "invoked regardless of the outcomes of
earlier hooks". -/
theorem c2_counterexample :
    (cexRouterC2.Process none "m").1 = some (GoError.mk "E1") ∧
    Ev.gNoSource 0 ∈ (cexRouterC2.Process none "m").2.2 ∧
    Ev.gNoSource 1 ∉ (cexRouterC2.Process none "m").2.2 := by
  refine ⟨by decide, by decide, by decide⟩

/-- C2 witness: the amended characterization applied to the two-hook
router. -/
theorem c2_witness :
    ((cexRouterC2.Process none "m").1 =
      match firstSomeResult (cexRouterC2.hooks.onNoSource.map fun f => f "m") with
      | some e => some e
      | none =>
        if cexRouterC2.hooks.onNoSource.isEmpty then
          some (GoError.mk "no source matched message")
        else none) ∧
    (∀ i, Ev.gNoSource i ∈ (cexRouterC2.Process none "m").2.2 ↔
      i < shortCircuitCount (cexRouterC2.hooks.onNoSource.map fun f => f "m")) :=
  c2_no_source_first_error_short_circuits cexRouterC2 none "m" rfl

/-- C3 counterexample: with the source-specific OnNoHandler hook as the
only hook of that kind, returning nil, Process still returns the
synthesized fallback error (the hook is invoked), refuting the claimed
nil skip. -/
theorem c3_counterexample :
    (cexRouterC3.Process none "m").1 = some (GoError.mk "no handler for key: k") ∧
    Ev.sNoHandler ∈ (cexRouterC3.Process none "m").2.2 := by
  refine ⟨by decide, by decide⟩

/-- C3 witness: the amended characterization applied to a router with one
global no-op hook alongside the nil source hook (here the skip does
happen, because a global hook is registered). -/
theorem c3_witness :
    (sampleRouterC3w.Process none "m").1 =
      (if sampleRouterC3w.hooks.onNoHandler.isEmpty then
        some (GoError.mk ("no handler for key: " ++ sampleMsgC3.key))
      else none) :=
  c3_skip_counts_only_global_hooks sampleRouterC3w none "m" ⟨-1, 0⟩ cexSourceC3
    sampleMsgC3 rfl rfl rfl rfl
    (by
      intro f hf
      rw [show sampleRouterC3w.hooks.onNoHandler
        = [fun _ _ => (none : Option GoError)] from rfl, List.mem_singleton] at hf
      subst hf
      rfl)
    (by
      intro h hh
      injection hh with h2
      rw [← h2])

/-- C4 witness: a second structurally identical message resolves the same
source via the fast path with no matchAll entry. -/
theorem c4_witness :
    (sampleRouterC6.matchSource ((sampleRouterC6.matchSource none "a").2.1) "b").1
      = some (⟨-1, 0⟩, sampleSourceC6) ∧
    Ev.resolved ⟨-1, 0⟩ ∈
      (sampleRouterC6.Process ((sampleRouterC6.matchSource none "a").2.1) "b").2.2 ∧
    Ev.matchAllCall ∉
      (sampleRouterC6.Process ((sampleRouterC6.matchSource none "a").2.1) "b").2.2 :=
  c4_second_identical_message_fast_path sampleRouterC6 none "a" "b" ⟨-1, 0⟩
    sampleSourceC6 rfl (fun _ _ => rfl)

/-- C6 witness: a handler error followed by a Fail callback returning its
own error makes Process return the callback's error. -/
theorem c6_witness :
    (sampleRouterC6.Process none "raw").1 = some (GoError.mk "callback error") := by
  have h := c6_completion_callback_supersedes sampleRouterC6 none "raw" ⟨-1, 0⟩
    sampleSourceC6 sampleMsgC6 sampleHandlerC6 sampleReplierC6 rfl rfl rfl rfl rfl rfl
  exact h.trans rfl

/-- C7 counterexample: Process returns the non-nil "validate payload"
wrapped error, but the returned error is not matchable as a
ValidationFailed kind — the validationError tag was stripped. -/
theorem c7_counterexample :
    (cexRouterC7.Process none "m").1
      = some (GoError.wrap "validate payload" (GoError.mk "empty value")) ∧
    errAsValidation (cexRouterC7.Process none "m").1 = none :=
  ⟨rfl, rfl⟩

/-- C7 witness: the amended characterization applied to the validating
router. -/
theorem c7_witness :
    (cexRouterC7.Process none "m").1
      = some (GoError.wrap "validate payload" (GoError.mk "empty value")) ∧
    (GoError.wrap "validate payload" (GoError.mk "empty value")).asValidation
      = (GoError.mk "empty value").asValidation :=
  c7_validation_error_tag_stripped cexRouterC7 none "m" ⟨-1, 0⟩ sampleSourceC7
    sampleMsgC7 sampleDecodeC7 sampleValidateC7 sampleRunC7 "pv"
    (GoError.mk "empty value") rfl rfl rfl rfl rfl rfl rfl rfl rfl

/-- C8 witness: two erroring OnNoHandler hooks — E1 wins and both are
recorded as invoked. -/
theorem c8_witness :
    (sampleRouterC8.Process none "m").1 = some (GoError.mk "E1") ∧
    Ev.gNoHandler 0 ∈ (sampleRouterC8.Process none "m").2.2 ∧
    Ev.gNoHandler 1 ∈ (sampleRouterC8.Process none "m").2.2 :=
  c8_first_error_wins_both_invoked sampleRouterC8 none "m" ⟨-1, 0⟩ sampleSourceC8
    sampleMsgC8 hookE1C8 hookE2C8 (GoError.mk "E1") (GoError.mk "E2")
    rfl rfl rfl rfl rfl rfl rfl rfl

end Dispatch
